import Mathlib

/-!
Verification of the pstree process-tree utility (github.com/bananazon/pstree).

This file shallowly embeds the parts of the repository that the claims are
about:

* the compact-mode grouping pass (`ProcessTree.InitCompactMode` method and the
  standalone `InitCompactMode` function),
* the six process sorting functions built on Go's `sort.Slice` (which is the
  standard library pdqsort, transcribed here),
* the `pstreeRunCmd` command pipeline from `cmd/root.go` (flag validation,
  order-by handling, display-option construction),
* the `GenerateProcess` attribute-collection orchestration.

Modelling conventions:
* Go machine integers are modelled as `Int`/`Nat`; where Go arithmetic can
  wrap (uint64 addition, int32 addition, int -> int32 conversion) the wrap is
  made explicit with `% 2 ^ 64` / `% 2 ^ 32`.
* Go `float64` values are modelled as exact rationals `Rat`; the conversion
  `float64(uint64)` used by the memory sort comparator is modelled exactly by
  rounding to 53 significant bits (round half to even).
* Go maps that are only ever read and written by key (never iterated) are
  modelled as association lists with update-in-place semantics, which is
  observationally equivalent and deterministic.
* Fallible attribute fetches are modelled as `Option` values (`none` = the
  fetch returned a non-nil error).
-/

namespace Pstree

/-! ## Machine-arithmetic helpers -/

/-- Wrapping 64-bit unsigned addition, as Go `uint64 + uint64`. -/
def u64add (a b : Nat) : Nat := (a + b) % 2 ^ 64

/-- Conversion of a (possibly wide) integer to Go `int32`, two's complement. -/
def toInt32 (x : Int) : Int := (x + 2 ^ 31) % 2 ^ 32 - 2 ^ 31

/-- Wrapping 32-bit signed addition, as Go `int32 + int32`. -/
def i32add (a b : Int) : Int := toInt32 (a + b)

/-- Go's builtin `max` on int64, written so it computes by cases. -/
def goMax (a b : Int) : Int := if a < b then b else a

/-- Go `bits.Len` on a natural number: position of the highest set bit. -/
def goBitsLen (n : Nat) : Nat := if n = 0 then 0 else Nat.log2 n + 1

/-- Exact rational value of Go's `float64(n)` for a `uint64` argument:
round to 53 significant bits, ties to even.  For `n < 2 ^ 53` the conversion
is exact. -/
def f64ofNat (n : Nat) : Rat :=
  if n < 2 ^ 53 then (n : Rat)
  else
    let e := goBitsLen n - 53
    let q := n / 2 ^ e
    let r := n % 2 ^ e
    let half := 2 ^ e / 2
    let q2 := if r > half ∨ (r = half ∧ q % 2 = 1) then q + 1 else q
    ((q2 * 2 ^ e : Nat) : Rat)

/-- Go `math.Round`: round to the nearest integer, ties away from zero.
Modelled from the spec: `util.RoundFloat` (package `util`, not under the
covered sources) is the standard round-to-`precision`-decimals helper
`math.Round(val * 10^p) / 10^p`. -/
def goRound (q : Rat) : Int :=
  if 0 ≤ q then ⌊q + 1 / 2⌋ else -⌊-q + 1 / 2⌋

/-- Modelled from the spec: `util.RoundFloat(x, 2)` — round a float64 to two
decimal places (the only precision used by `GenerateProcess`). -/
def roundFloat2 (q : Rat) : Rat := (goRound (q * 100) : Rat) / 100

/-! ## Data model

`Process` carries the fields of the repository's `Process` struct that the
verified operations read.  (The full struct has further fields — open files,
io counters, … — that none of the claims nor the embedded operations touch;
they are omitted.)  `MemoryInfo` is the RSS-carrying part of gopsutil's
`MemoryInfoStat`. -/

structure MemInfo where
  RSS : Nat
  deriving Repr, DecidableEq

structure Process where
  PID : Int
  PPID : Int
  PGID : Int
  Command : String
  Args : List String
  Signature : String
  Username : String
  Age : Int
  CPUPercent : Rat
  CreateTime : Int
  MemoryInfo : MemInfo
  MemoryPercent : Rat
  NumThreads : Int
  UIDs : List Nat
  GIDs : List Nat
  Groups : List Nat
  deriving Repr, DecidableEq

instance : Inhabited Process :=
  ⟨{ PID := 0, PPID := 0, PGID := 0, Command := "", Args := [], Signature := "",
     Username := "", Age := 0, CPUPercent := 0, CreateTime := 0,
     MemoryInfo := { RSS := 0 }, MemoryPercent := 0, NumThreads := 0,
     UIDs := [], GIDs := [], Groups := [] }⟩

/-- The display-option fields read by the embedded operations
(`DisplayOptions` struct of the repository). -/
structure DisplayOptions where
  ColorAttr : String := ""
  ColorCount : Int := 0
  ColorizeOutput : Bool := false
  ColorScheme : String := ""
  ColorSupport : Bool := false
  CompactMode : Bool := true
  Contains : String := ""
  ExcludeRoot : Bool := false
  IBM850Graphics : Bool := false
  InstalledMemory : Nat := 0
  MaxDepth : Int := 0
  OrderBy : String := ""
  RainbowOutput : Bool := false
  RootPID : Int := 0
  ScreenWidth : Int := 0
  ShowArguments : Bool := false
  ShowCpuPercent : Bool := false
  ShowMemoryUsage : Bool := false
  ShowNumThreads : Bool := false
  ShowOwner : Bool := false
  ShowPGIDs : Bool := false
  ShowPGLs : Bool := false
  ShowPIDs : Bool := false
  ShowPPIDs : Bool := false
  ShowProcessAge : Bool := false
  ShowUIDTransitions : Bool := false
  ShowUserTransitions : Bool := false
  Usernames : List String := []
  UTF8Graphics : Bool := false
  VT100Graphics : Bool := false
  WideDisplay : Bool := false
  deriving Repr, DecidableEq

/-- The repository's `ProcessGroup` struct (compact mode).  Fields not set by
the group literal in `InitCompactMode` start at their Go zero values. -/
structure ProcessGroup where
  Count : Nat
  FirstIndex : Nat
  FullPath : String
  Indices : List Nat
  Owner : String
  Age : Int := 0
  CPUPercent : Rat := 0
  MemoryUsage : Nat := 0
  NumThreads : Int := 0
  deriving Repr, DecidableEq

/-! ## Association-list model of the nested Go maps

`processGroups : map[int32]map[string]map[string]ProcessGroup` is only ever
read and written at a full `[parent][signature][owner]` path, never iterated,
so an association list with in-place update is an exact model. -/

/-- Lookup in an association list (first match, like a Go map read). -/
def alookup {κ β : Type} [DecidableEq κ] (k : κ) : List (κ × β) → Option β
  | [] => none
  | (k1, v) :: t => if k = k1 then some v else alookup k t

/-- Go map store `m[k] = v`: replace in place if present, append otherwise. -/
def aupdate {κ β : Type} [DecidableEq κ] (k : κ) (v : β) : List (κ × β) → List (κ × β)
  | [] => [(k, v)]
  | (k1, v1) :: t => if k = k1 then (k, v) :: t else (k1, v1) :: aupdate k v t

/-- The nested `processGroups` map. -/
abbrev Groups : Type := List (Int × List (String × List (String × ProcessGroup)))

/-- Read at a full `[parent][signature][owner]` path (Go's nil-map reads
yield the zero value, hence `none` when a level is missing). -/
def lookup3 (gs : Groups) (p : Int) (key ow : String) : Option ProcessGroup :=
  match alookup p gs with
  | none => none
  | some m1 =>
    match alookup key m1 with
    | none => none
    | some m2 => alookup ow m2

/-- `if _, exists := processGroups[parentPID]; !exists { processGroups[parentPID] = make(...) }` -/
def ensureParent (p : Int) (gs : Groups) : Groups :=
  match alookup p gs with
  | some _ => gs
  | none => aupdate p [] gs

/-- `if _, exists := processGroups[parentPID][key]; !exists { ... = make(...) }` -/
def ensureKey (p : Int) (key : String) (gs : Groups) : Groups :=
  match alookup key ((alookup p gs).getD []) with
  | some _ => gs
  | none => aupdate p (aupdate key [] ((alookup p gs).getD [])) gs

/-- `processGroups[parentPID][compositeKey][processOwner] = group` -/
def store3 (p : Int) (key ow : String) (g : ProcessGroup) (gs : Groups) : Groups :=
  aupdate p
    (aupdate key
      (aupdate ow g ((alookup key ((alookup p gs).getD [])).getD []))
      ((alookup p gs).getD []))
    gs

/-! ## Compact mode (`InitCompactMode`) -/

/-- State threaded through the grouping loop: the `processGroups` map and the
`skipProcesses` set. -/
structure CMState where
  groups : Groups
  skips : List Nat
  deriving DecidableEq

/-- The four flag-guarded metric aggregation assignments of
`ProcessTree.InitCompactMode` (age via `max`, cpu/memory/threads via
wrapping sums). -/
def applyMetrics (opts : DisplayOptions) (node : Process) (g : ProcessGroup) : ProcessGroup :=
  let g := if opts.ShowProcessAge then { g with Age := goMax g.Age node.Age } else g
  let g := if opts.ShowCpuPercent then { g with CPUPercent := g.CPUPercent + node.CPUPercent } else g
  let g := if opts.ShowMemoryUsage then { g with MemoryUsage := u64add g.MemoryUsage node.MemoryInfo.RSS } else g
  if opts.ShowNumThreads then { g with NumThreads := i32add g.NumThreads node.NumThreads } else g

/-- One iteration of the `ProcessTree.InitCompactMode` loop body (the method
version, which also aggregates display metrics under their show-flags). -/
def initCompactStep (opts : DisplayOptions) (nodes : List Process)
    (st : CMState) (pidIndex : Nat) : CMState :=
  if pidIndex ∈ st.skips then st
  else
    let node := nodes.getD pidIndex default
    let parentPID := node.PPID
    let processOwner := node.Username
    let compositeKey := node.Signature
    let gs := ensureKey parentPID compositeKey (ensureParent parentPID st.groups)
    match lookup3 gs parentPID compositeKey processOwner with
    | none =>
      { groups := store3 parentPID compositeKey processOwner
          (applyMetrics opts node
            { Count := 1, FirstIndex := pidIndex, FullPath := "",
              Indices := [pidIndex], Owner := processOwner }) gs,
        skips := st.skips }
    | some g =>
      { groups := store3 parentPID compositeKey processOwner
          (applyMetrics opts node
            { g with Count := g.Count + 1, Indices := g.Indices ++ [pidIndex] }) gs,
        skips := st.skips ++ [pidIndex] }

/-- The tree state the method reads: its node table, its display options and
its `ProcessGroups` map.  `NewProcessTree` (tree construction, a file not
among the covered sources; per the spec the pipeline is re-run from a fresh
tree per snapshot) initialises `ProcessGroups` empty, which is how the
claims instantiate it. -/
structure ProcessTree where
  Nodes : List Process
  DisplayOptions : DisplayOptions
  ProcessGroups : Groups

/-- `ProcessTree.InitCompactMode`: iterate the loop body over all node
indices.  `skipProcesses` is freshly created; `ProcessGroups` is whatever the
tree already holds (the method does not reset it). -/
def ProcessTree.InitCompactMode (t : ProcessTree) : CMState :=
  (List.range t.Nodes.length).foldl (initCompactStep t.DisplayOptions t.Nodes)
    { groups := t.ProcessGroups, skips := [] }

/-- One iteration of the standalone `InitCompactMode` loop body: identical
grouping, but no metric aggregation. -/
def initCompactStepStandalone (processes : List Process)
    (st : CMState) (pidIndex : Nat) : CMState :=
  if pidIndex ∈ st.skips then st
  else
    let node := processes.getD pidIndex default
    let parentPID := node.PPID
    let processOwner := node.Username
    let compositeKey := node.Signature
    let gs := ensureKey parentPID compositeKey (ensureParent parentPID st.groups)
    match lookup3 gs parentPID compositeKey processOwner with
    | none =>
      let group : ProcessGroup :=
        { Count := 1, FirstIndex := pidIndex, FullPath := "",
          Indices := [pidIndex], Owner := processOwner }
      { groups := store3 parentPID compositeKey processOwner group gs,
        skips := st.skips }
    | some g =>
      let group := { g with Count := g.Count + 1, Indices := g.Indices ++ [pidIndex] }
      { groups := store3 parentPID compositeKey processOwner group gs,
        skips := st.skips ++ [pidIndex] }

/-- The standalone `InitCompactMode` function: resets both module-level maps
and then runs the same loop. -/
def InitCompactMode (processes : List Process) : CMState :=
  (List.range processes.length).foldl (initCompactStepStandalone processes)
    { groups := [], skips := [] }

/-- `ShouldSkipProcess`: membership in the skip set. -/
def ShouldSkipProcess (st : CMState) (processIndex : Nat) : Bool :=
  decide (processIndex ∈ st.skips)

/-! ## Derived quantities used by the claims -/

/-- Sum of `Count` over one owner-level map. -/
def sumOwner (m2 : List (String × ProcessGroup)) : Nat :=
  (m2.map (fun e => e.2.Count)).sum

/-- Sum of `Count` over one signature-level map. -/
def sumInner (m1 : List (String × List (String × ProcessGroup))) : Nat :=
  (m1.map (fun e => sumOwner e.2)).sum

/-- Sum of `Count` over all groups stored under a parent PID. -/
def sumCounts (gs : Groups) (p : Int) : Nat :=
  sumInner ((alookup p gs).getD [])

/-- All `(signature, owner)` keys of groups stored under a parent PID, in
storage order. -/
def keysUnder (gs : Groups) (p : Int) : List (String × String) :=
  (((alookup p gs).getD []).map (fun e => e.2.map (fun e2 => (e.1, e2.1)))).flatten

/-- The `(PPID, Signature, Username)` triple of the node at an index. -/
def nodeAttrs (nodes : List Process) (i : Nat) : Int × String × String :=
  ((nodes.getD i default).PPID, (nodes.getD i default).Signature,
   (nodes.getD i default).Username)

/-- Indices `j < k` whose node has the given `(parent, signature, owner)`
triple, in index order — the members a group accumulates. -/
def classIndices (nodes : List Process) (k : Nat) (p : Int) (key ow : String) : List Nat :=
  (List.range k).filter (fun j => decide (nodeAttrs nodes j = (p, key, ow)))

/-- Age aggregate: running `max` from the zero value, as the method computes it. -/
def ageFold (nodes : List Process) (idxs : List Nat) : Int :=
  idxs.foldl (fun acc j => goMax acc (nodes.getD j default).Age) 0

/-- CPU aggregate: running sum from 0. -/
def cpuFold (nodes : List Process) (idxs : List Nat) : Rat :=
  idxs.foldl (fun acc j => acc + (nodes.getD j default).CPUPercent) 0

/-- Memory aggregate: running 64-bit wrapping sum of RSS from 0. -/
def memFold (nodes : List Process) (idxs : List Nat) : Nat :=
  idxs.foldl (fun acc j => u64add acc (nodes.getD j default).MemoryInfo.RSS) 0

/-- Thread aggregate: running 32-bit wrapping sum from 0. -/
def thrFold (nodes : List Process) (idxs : List Nat) : Int :=
  idxs.foldl (fun acc j => i32add acc (nodes.getD j default).NumThreads) 0

/-- The group the method builds for a member class, expressed directly over
the class's index list. -/
def mkGroup (opts : DisplayOptions) (nodes : List Process) (cls : List Nat)
    (ow : String) : ProcessGroup :=
  { Count := cls.length, FirstIndex := cls.headD 0, FullPath := "",
    Indices := cls, Owner := ow,
    Age := if opts.ShowProcessAge then ageFold nodes cls else 0,
    CPUPercent := if opts.ShowCpuPercent then cpuFold nodes cls else 0,
    MemoryUsage := if opts.ShowMemoryUsage then memFold nodes cls else 0,
    NumThreads := if opts.ShowNumThreads then thrFold nodes cls else 0 }

/-! ## Association-list lemmas -/

theorem alookup_aupdate_self {κ β : Type} [DecidableEq κ] (k : κ) (v : β) (l : List (κ × β)) :
    alookup k (aupdate k v l) = some v := by
  induction l with
  | nil => simp [alookup, aupdate]
  | cons e t ih =>
    by_cases h : k = e.1
    · simp [alookup, aupdate, h]
    · simp [alookup, aupdate, h, ih]

theorem alookup_aupdate_ne {κ β : Type} [DecidableEq κ] {k1 k : κ} (v : β)
    (l : List (κ × β)) (h : k1 ≠ k) :
    alookup k1 (aupdate k v l) = alookup k1 l := by
  induction l with
  | nil => simp [alookup, aupdate, h]
  | cons e t ih =>
    by_cases h2 : k = e.1
    · subst h2
      simp [alookup, aupdate, h]
    · by_cases h3 : k1 = e.1
      · simp [alookup, aupdate, h2, h3]
      · simp [alookup, aupdate, h2, h3, ih]

theorem alookup_mem {κ β : Type} [DecidableEq κ] {k : κ} {v : β} {l : List (κ × β)}
    (h : alookup k l = some v) : (k, v) ∈ l := by
  induction l with
  | nil => simp [alookup] at h
  | cons e t ih =>
    by_cases h2 : k = e.1
    · subst h2
      simp [alookup] at h
      subst h
      exact List.mem_cons_self _ _
    · simp [alookup, h2] at h
      exact List.mem_cons_of_mem _ (ih h)

theorem mem_aupdate {κ β : Type} [DecidableEq κ] {k : κ} {v : β} {e : κ × β}
    {l : List (κ × β)} (h : e ∈ aupdate k v l) : e = (k, v) ∨ e ∈ l := by
  induction l with
  | nil => simpa [aupdate] using h
  | cons e1 t ih =>
    obtain ⟨k1, v1⟩ := e1
    simp only [aupdate] at h
    by_cases h2 : k = k1
    · rw [if_pos h2] at h
      rcases List.mem_cons.1 h with h | h
      · exact Or.inl h
      · exact Or.inr (List.mem_cons_of_mem _ h)
    · rw [if_neg h2] at h
      rcases List.mem_cons.1 h with h | h
      · exact Or.inr (by simp [h])
      · rcases ih h with h3 | h3
        · exact Or.inl h3
        · exact Or.inr (List.mem_cons_of_mem _ h3)

theorem mem_keys_aupdate {κ β : Type} [DecidableEq κ] {k1 k : κ} {v : β}
    {l : List (κ × β)} (h : k1 ∈ (aupdate k v l).map Prod.fst) :
    k1 = k ∨ k1 ∈ l.map Prod.fst := by
  rcases List.mem_map.1 h with ⟨e, he, hfst⟩
  rcases mem_aupdate he with h2 | h2
  · subst h2; exact Or.inl hfst.symm
  · exact Or.inr (hfst ▸ List.mem_map_of_mem Prod.fst h2)

theorem aupdate_keys_nodup {κ β : Type} [DecidableEq κ] (k : κ) (v : β)
    {l : List (κ × β)} (h : (l.map Prod.fst).Nodup) :
    ((aupdate k v l).map Prod.fst).Nodup := by
  induction l with
  | nil => simp [aupdate]
  | cons e t ih =>
    obtain ⟨k1, v1⟩ := e
    simp only [List.map_cons, List.nodup_cons] at h
    by_cases h2 : k = k1
    · subst h2
      have heq : aupdate k v ((k, v1) :: t) = (k, v) :: t := by simp [aupdate]
      rw [heq]
      simp only [List.map_cons, List.nodup_cons]
      exact ⟨h.1, h.2⟩
    · simp only [aupdate, if_neg h2, List.map_cons, List.nodup_cons]
      refine ⟨fun hmem => ?_, ih h.2⟩
      rcases mem_keys_aupdate hmem with h3 | h3
      · exact h2 h3.symm
      · exact h.1 h3

/-! ## Well-formedness of the nested group map -/

/-- All key levels of the nested map are duplicate-free. -/
def wfGroups (gs : Groups) : Prop :=
  (gs.map Prod.fst).Nodup ∧
  ∀ e ∈ gs, ((e.2.map Prod.fst).Nodup ∧ ∀ e2 ∈ e.2, (e2.2.map Prod.fst).Nodup)

theorem wfGroups_nil : wfGroups [] := by
  constructor
  · simp
  · intro e he; simp at he

theorem wfGroups_inner {gs : Groups} (h : wfGroups gs) (p : Int) :
    (((alookup p gs).getD []).map Prod.fst).Nodup ∧
    ∀ e2 ∈ (alookup p gs).getD [], (e2.2.map Prod.fst).Nodup := by
  cases hl : alookup p gs with
  | none => simp
  | some m1 =>
    have hmem := alookup_mem hl
    simpa using h.2 (p, m1) hmem

theorem wfGroups_store3 {gs : Groups} (h : wfGroups gs) (p : Int) (key ow : String)
    (g : ProcessGroup) : wfGroups (store3 p key ow g gs) := by
  have hin := wfGroups_inner h p
  have hm2 : (((alookup key ((alookup p gs).getD [])).getD []).map Prod.fst).Nodup := by
    cases hl2 : alookup key ((alookup p gs).getD []) with
    | none => simp
    | some m2 => simpa using hin.2 (key, m2) (alookup_mem hl2)
  unfold store3
  constructor
  · exact aupdate_keys_nodup _ _ h.1
  · intro e he
    rcases mem_aupdate he with he2 | he2
    · subst he2
      refine ⟨aupdate_keys_nodup _ _ hin.1, ?_⟩
      intro e2 he2b
      rcases mem_aupdate he2b with he3 | he3
      · subst he3
        exact aupdate_keys_nodup _ _ hm2
      · exact hin.2 e2 he3
    · exact h.2 e he2

theorem wfGroups_ensureParent {gs : Groups} (h : wfGroups gs) (p : Int) :
    wfGroups (ensureParent p gs) := by
  unfold ensureParent
  cases hl : alookup p gs with
  | some m1 => exact h
  | none =>
    constructor
    · exact aupdate_keys_nodup _ _ h.1
    · intro e he
      rcases mem_aupdate he with he2 | he2
      · subst he2
        constructor
        · simp
        · intro e2 he2b; simp at he2b
      · exact h.2 e he2

theorem wfGroups_ensureKey {gs : Groups} (h : wfGroups gs) (p : Int) (key : String) :
    wfGroups (ensureKey p key gs) := by
  have hin := wfGroups_inner h p
  unfold ensureKey
  cases hl : alookup key ((alookup p gs).getD []) with
  | some m2 => exact h
  | none =>
    constructor
    · exact aupdate_keys_nodup _ _ h.1
    · intro e he
      rcases mem_aupdate he with he2 | he2
      · subst he2
        refine ⟨aupdate_keys_nodup _ _ hin.1, ?_⟩
        intro e2 he2b
        rcases mem_aupdate he2b with he3 | he3
        · subst he3; simp
        · exact hin.2 e2 he3
      · exact h.2 e he2

/-! ## How one loop iteration transforms the nested map -/

theorem lookup3_eq (gs : Groups) (p : Int) (key ow : String) :
    lookup3 gs p key ow
      = alookup ow ((alookup key ((alookup p gs).getD [])).getD []) := by
  unfold lookup3
  cases hl : alookup p gs with
  | none => simp [alookup]
  | some m1 =>
    dsimp only [Option.getD_some]
    cases hl2 : alookup key m1 with
    | none => simp [alookup]
    | some m2 => simp

theorem alookup_ensureParent_self (p : Int) (gs : Groups) :
    alookup p (ensureParent p gs) = some ((alookup p gs).getD []) := by
  unfold ensureParent
  cases hl : alookup p gs with
  | some m1 => simp [hl]
  | none => simp [alookup_aupdate_self]

theorem alookup_ensureParent_ne {p1 p : Int} (gs : Groups) (h : p1 ≠ p) :
    alookup p1 (ensureParent p gs) = alookup p1 gs := by
  unfold ensureParent
  cases hl : alookup p gs with
  | some m1 => rfl
  | none => exact alookup_aupdate_ne _ _ h

/-- `Count` carried by an optional group (0 when absent). -/
def cntOf (o : Option ProcessGroup) : Nat :=
  match o with
  | some g => g.Count
  | none => 0

theorem sumOwner_aupdate (ow : String) (g : ProcessGroup)
    (m2 : List (String × ProcessGroup)) :
    sumOwner (aupdate ow g m2) + cntOf (alookup ow m2) = sumOwner m2 + g.Count := by
  induction m2 with
  | nil => simp [sumOwner, aupdate, alookup, cntOf]
  | cons e t ih =>
    obtain ⟨k1, v1⟩ := e
    by_cases h : ow = k1
    · subst h
      have heq : aupdate ow g ((ow, v1) :: t) = (ow, g) :: t := by simp [aupdate]
      have heq2 : alookup ow ((ow, v1) :: t) = some v1 := by simp [alookup]
      rw [heq, heq2]
      simp [sumOwner, cntOf]
      omega
    · have heq : aupdate ow g ((k1, v1) :: t) = (k1, v1) :: aupdate ow g t := by
        simp [aupdate, h]
      have heq2 : alookup ow ((k1, v1) :: t) = alookup ow t := by simp [alookup, h]
      rw [heq, heq2]
      simp only [sumOwner, List.map_cons, List.sum_cons]
      have := ih
      simp only [sumOwner] at this
      omega

theorem sumInner_aupdate (key : String) (m2v : List (String × ProcessGroup))
    (m1 : List (String × List (String × ProcessGroup))) :
    sumInner (aupdate key m2v m1) + sumOwner ((alookup key m1).getD [])
      = sumInner m1 + sumOwner m2v := by
  induction m1 with
  | nil => simp [sumInner, aupdate, alookup, sumOwner]
  | cons e t ih =>
    obtain ⟨k1, v1⟩ := e
    by_cases h : key = k1
    · subst h
      have heq : aupdate key m2v ((key, v1) :: t) = (key, m2v) :: t := by simp [aupdate]
      have heq2 : alookup key ((key, v1) :: t) = some v1 := by simp [alookup]
      rw [heq, heq2]
      simp [sumInner]
      omega
    · have heq : aupdate key m2v ((k1, v1) :: t) = (k1, v1) :: aupdate key m2v t := by
        simp [aupdate, h]
      have heq2 : alookup key ((k1, v1) :: t) = alookup key t := by simp [alookup, h]
      rw [heq, heq2]
      simp only [sumInner, List.map_cons, List.sum_cons]
      have := ih
      simp only [sumInner] at this
      omega

/-- What `ensureKey p key (ensureParent p gs)` looks like: the parent entry
exists, holds the key entry, and nothing observable changed. -/
theorem ensure_facts (gs : Groups) (p : Int) (key : String) :
    ∃ m1E,
      alookup p (ensureKey p key (ensureParent p gs)) = some m1E ∧
      alookup key m1E = some ((alookup key ((alookup p gs).getD [])).getD []) ∧
      (∀ key1, key1 ≠ key → alookup key1 m1E = alookup key1 ((alookup p gs).getD [])) ∧
      sumInner m1E = sumInner ((alookup p gs).getD []) ∧
      (∀ p1, p1 ≠ p → alookup p1 (ensureKey p key (ensureParent p gs)) = alookup p1 gs) := by
  have hP : alookup p (ensureParent p gs) = some ((alookup p gs).getD []) :=
    alookup_ensureParent_self p gs
  unfold ensureKey
  rw [hP]
  simp only [Option.getD_some]
  cases hK : alookup key ((alookup p gs).getD []) with
  | some m2 =>
    refine ⟨(alookup p gs).getD [], hP, by simp [hK], fun key1 h => rfl, rfl,
      fun p1 h => alookup_ensureParent_ne gs h⟩
  | none =>
    refine ⟨aupdate key [] ((alookup p gs).getD []), alookup_aupdate_self _ _ _,
      by simp [alookup_aupdate_self], fun key1 h => alookup_aupdate_ne _ _ h, ?_, ?_⟩
    · have := sumInner_aupdate key [] ((alookup p gs).getD [])
      rw [hK] at this
      simpa [sumOwner] using this
    · intro p1 h
      rw [alookup_aupdate_ne _ _ h]
      exact alookup_ensureParent_ne gs h

/-- The combined effect on `lookup3` of one ensure-then-store iteration. -/
theorem lookup3_stepStore (gs : Groups) (p : Int) (key ow : String)
    (g : ProcessGroup) (p1 : Int) (key1 ow1 : String) :
    lookup3 (store3 p key ow g (ensureKey p key (ensureParent p gs))) p1 key1 ow1
      = if p1 = p ∧ key1 = key ∧ ow1 = ow then some g
        else lookup3 gs p1 key1 ow1 := by
  obtain ⟨m1E, h1, h2, h3, _, h5⟩ := ensure_facts gs p key
  unfold store3
  rw [h1]
  simp only [Option.getD_some]
  rw [h2]
  simp only [Option.getD_some]
  rw [lookup3_eq gs p1 key1 ow1]
  by_cases hp : p1 = p
  · subst hp
    rw [lookup3_eq, alookup_aupdate_self]
    simp only [Option.getD_some]
    by_cases hk : key1 = key
    · subst hk
      rw [alookup_aupdate_self]
      simp only [Option.getD_some]
      by_cases ho : ow1 = ow
      · subst ho
        rw [alookup_aupdate_self]
        simp
      · rw [alookup_aupdate_ne _ _ ho]
        simp [ho]
    · rw [alookup_aupdate_ne _ _ hk, h3 key1 hk]
      simp [hk]
  · rw [lookup3_eq, alookup_aupdate_ne _ _ hp, h5 p1 hp]
    simp [hp]

/-- Effect of one ensure-then-store iteration on the per-parent count sum:
the stored parent. -/
theorem sumCounts_stepStore_self (gs : Groups) (p : Int) (key ow : String)
    (g : ProcessGroup) :
    sumCounts (store3 p key ow g (ensureKey p key (ensureParent p gs))) p
        + cntOf (lookup3 gs p key ow)
      = sumCounts gs p + g.Count := by
  obtain ⟨m1E, h1, h2, h3, h4, h5⟩ := ensure_facts gs p key
  unfold store3
  rw [h1]
  simp only [Option.getD_some]
  rw [h2]
  simp only [Option.getD_some]
  unfold sumCounts
  rw [alookup_aupdate_self]
  simp only [Option.getD_some]
  have hsi := sumInner_aupdate key
    (aupdate ow g ((alookup key ((alookup p gs).getD [])).getD [])) m1E
  rw [h2] at hsi
  simp only [Option.getD_some] at hsi
  have hso := sumOwner_aupdate ow g ((alookup key ((alookup p gs).getD [])).getD [])
  rw [← lookup3_eq] at hso
  rw [h4] at hsi
  omega

/-- Effect of one ensure-then-store iteration on the per-parent count sum:
any other parent. -/
theorem sumCounts_stepStore_ne (gs : Groups) (p : Int) (key ow : String)
    (g : ProcessGroup) {p1 : Int} (h : p1 ≠ p) :
    sumCounts (store3 p key ow g (ensureKey p key (ensureParent p gs))) p1
      = sumCounts gs p1 := by
  obtain ⟨m1E, h1, h2, h3, h4, h5⟩ := ensure_facts gs p key
  unfold store3
  rw [h1]
  simp only [Option.getD_some]
  unfold sumCounts
  rw [alookup_aupdate_ne _ _ h, h5 p1 h]

/-- The ensure steps change no `lookup3` result. -/
theorem lookup3_ensure (gs : Groups) (p : Int) (key : String)
    (p1 : Int) (key1 ow1 : String) :
    lookup3 (ensureKey p key (ensureParent p gs)) p1 key1 ow1
      = lookup3 gs p1 key1 ow1 := by
  obtain ⟨m1E, h1, h2, h3, _, h5⟩ := ensure_facts gs p key
  rw [lookup3_eq, lookup3_eq]
  by_cases hp : p1 = p
  · subst hp
    rw [h1]
    simp only [Option.getD_some]
    by_cases hk : key1 = key
    · subst hk
      rw [h2]
      simp only [Option.getD_some]
    · rw [h3 key1 hk]
  · rw [h5 p1 hp]

/-! ## The grouping invariant -/

/-- The state of the method's loop after processing the first `k` indices
over a freshly constructed tree. -/
def cmAfter (opts : DisplayOptions) (nodes : List Process) (k : Nat) : CMState :=
  (List.range k).foldl (initCompactStep opts nodes) { groups := [], skips := [] }

theorem cmAfter_succ (opts : DisplayOptions) (nodes : List Process) (k : Nat) :
    cmAfter opts nodes (k + 1) = initCompactStep opts nodes (cmAfter opts nodes k) k := by
  simp [cmAfter, List.range_succ]

theorem classIndices_succ (nodes : List Process) (k : Nat) (p : Int) (key ow : String) :
    classIndices nodes (k + 1) p key ow
      = classIndices nodes k p key ow
        ++ (if nodeAttrs nodes k = (p, key, ow) then [k] else []) := by
  unfold classIndices
  rw [List.range_succ, List.filter_append]
  congr 1
  by_cases h : nodeAttrs nodes k = (p, key, ow)
  · simp [h]
  · simp [h]

theorem ageFold_concat (nodes : List Process) (idxs : List Nat) (j : Nat) :
    ageFold nodes (idxs ++ [j]) = goMax (ageFold nodes idxs) (nodes.getD j default).Age := by
  simp [ageFold, List.foldl_append]

theorem cpuFold_concat (nodes : List Process) (idxs : List Nat) (j : Nat) :
    cpuFold nodes (idxs ++ [j]) = cpuFold nodes idxs + (nodes.getD j default).CPUPercent := by
  simp [cpuFold, List.foldl_append]

theorem memFold_concat (nodes : List Process) (idxs : List Nat) (j : Nat) :
    memFold nodes (idxs ++ [j]) = u64add (memFold nodes idxs) (nodes.getD j default).MemoryInfo.RSS := by
  simp [memFold, List.foldl_append]

theorem thrFold_concat (nodes : List Process) (idxs : List Nat) (j : Nat) :
    thrFold nodes (idxs ++ [j]) = i32add (thrFold nodes idxs) (nodes.getD j default).NumThreads := by
  simp [thrFold, List.foldl_append]

theorem headD_concat {α : Type} [Inhabited α] (l : List α) (x d : α) (h : l ≠ []) :
    (l ++ [x]).headD d = l.headD d := by
  cases l with
  | nil => exact absurd rfl h
  | cons a t => rfl

/-- A fresh group run through the metric updates is exactly the canonical
group of the singleton class. -/
theorem applyMetrics_new (opts : DisplayOptions) (nodes : List Process) (k : Nat) (ow : String) :
    applyMetrics opts (nodes.getD k default)
        { Count := 1, FirstIndex := k, FullPath := "", Indices := [k], Owner := ow }
      = mkGroup opts nodes [k] ow := by
  by_cases hA : opts.ShowProcessAge <;> by_cases hC : opts.ShowCpuPercent <;>
    by_cases hM : opts.ShowMemoryUsage <;> by_cases hT : opts.ShowNumThreads <;>
    simp [applyMetrics, mkGroup, hA, hC, hM, hT, ageFold, cpuFold, memFold, thrFold]

/-- Folding one more member into the canonical group of a nonempty class
yields the canonical group of the extended class. -/
theorem applyMetrics_extend (opts : DisplayOptions) (nodes : List Process)
    (cls : List Nat) (k : Nat) (ow : String) (h : cls ≠ []) :
    applyMetrics opts (nodes.getD k default)
        { mkGroup opts nodes cls ow with
          Count := (mkGroup opts nodes cls ow).Count + 1,
          Indices := (mkGroup opts nodes cls ow).Indices ++ [k] }
      = mkGroup opts nodes (cls ++ [k]) ow := by
  obtain ⟨a, t, rfl⟩ := List.exists_cons_of_ne_nil h
  have h1 := ageFold_concat nodes (a :: t) k
  have h2 := cpuFold_concat nodes (a :: t) k
  have h3 := memFold_concat nodes (a :: t) k
  have h4 := thrFold_concat nodes (a :: t) k
  simp only [List.getD_eq_getElem?_getD] at h1 h2 h3 h4
  by_cases hA : opts.ShowProcessAge <;> by_cases hC : opts.ShowCpuPercent <;>
    by_cases hM : opts.ShowMemoryUsage <;> by_cases hT : opts.ShowNumThreads <;>
    simp [applyMetrics, mkGroup, hA, hC, hM, hT] <;>
    simp only [← List.cons_append, h1, h2, h3, h4, eq_self_iff_true, and_self,
      and_true, true_and]

/-- Master invariant of the grouping loop: after the first `k` indices, the
skip set is bounded by `k`, every `lookup3` result is the canonical group of
its member class below `k`, the key structure is duplicate-free, and the
per-parent count sums equal the number of processed children of the parent. -/
theorem compact_invariant (opts : DisplayOptions) (nodes : List Process) (k : Nat) :
    (∀ j ∈ (cmAfter opts nodes k).skips, j < k) ∧
    (∀ p key ow, lookup3 (cmAfter opts nodes k).groups p key ow
        = if classIndices nodes k p key ow = [] then none
          else some (mkGroup opts nodes (classIndices nodes k p key ow) ow)) ∧
    wfGroups (cmAfter opts nodes k).groups ∧
    (∀ p, sumCounts (cmAfter opts nodes k).groups p
        = ((List.range k).filter (fun j => decide ((nodes.getD j default).PPID = p))).length) := by
  induction k with
  | zero =>
    refine ⟨?_, ?_, wfGroups_nil, ?_⟩
    · intro j hj; simp [cmAfter] at hj
    · intro p key ow
      simp [cmAfter, lookup3, alookup, classIndices]
    · intro p
      simp [cmAfter, sumCounts, alookup, sumInner]
  | succ k ih =>
    obtain ⟨ih1, ih2, ih3, ih4⟩ := ih
    have hskip : ¬ k ∈ (cmAfter opts nodes k).skips := fun h => absurd (ih1 k h) (lt_irrefl k)
    rw [cmAfter_succ]
    set st := cmAfter opts nodes k with hst
    set nd := nodes.getD k default with hnd
    have hattrs : nodeAttrs nodes k = (nd.PPID, nd.Signature, nd.Username) := rfl
    have hsc : lookup3 (ensureKey nd.PPID nd.Signature (ensureParent nd.PPID st.groups))
        nd.PPID nd.Signature nd.Username = lookup3 st.groups nd.PPID nd.Signature nd.Username :=
      lookup3_ensure st.groups nd.PPID nd.Signature nd.PPID nd.Signature nd.Username
    by_cases hcls : classIndices nodes k nd.PPID nd.Signature nd.Username = []
    · -- the node starts a new group
      have hscn : lookup3 (ensureKey nd.PPID nd.Signature (ensureParent nd.PPID st.groups))
          nd.PPID nd.Signature nd.Username = none := by
        rw [hsc, ih2, if_pos hcls]
      have hstep : initCompactStep opts nodes st k =
          { groups := store3 nd.PPID nd.Signature nd.Username
              (applyMetrics opts nd
                { Count := 1, FirstIndex := k, FullPath := "",
                  Indices := [k], Owner := nd.Username })
              (ensureKey nd.PPID nd.Signature (ensureParent nd.PPID st.groups)),
            skips := st.skips } := by
        unfold initCompactStep
        rw [if_neg hskip]
        simp only [← hnd, hscn]
      rw [hstep]
      refine ⟨?_, ?_, ?_, ?_⟩
      · intro j hj
        exact Nat.lt_succ_of_lt (ih1 j hj)
      · intro p key ow
        rw [lookup3_stepStore, classIndices_succ]
        by_cases htr : p = nd.PPID ∧ key = nd.Signature ∧ ow = nd.Username
        · obtain ⟨hp, hk, ho⟩ := htr
          subst hp; subst hk; subst ho
          rw [if_pos ⟨rfl, rfl, rfl⟩, if_pos hattrs, hcls]
          simp only [List.nil_append]
          rw [if_neg (List.cons_ne_nil k [])]
          simp only [Option.some.injEq]
          rw [hnd]
          exact applyMetrics_new opts nodes k (nodes.getD k default).Username
        · have hne : ¬ nodeAttrs nodes k = (p, key, ow) := by
            rw [hattrs]
            intro hcontra
            apply htr
            rw [Prod.mk.injEq, Prod.mk.injEq] at hcontra
            exact ⟨hcontra.1.symm, hcontra.2.1.symm, hcontra.2.2.symm⟩
          rw [if_neg htr, if_neg hne, List.append_nil]
          exact ih2 p key ow
      · exact wfGroups_store3
          (wfGroups_ensureKey (wfGroups_ensureParent ih3 nd.PPID) nd.PPID nd.Signature)
          nd.PPID nd.Signature nd.Username _
      · intro p
        dsimp only
        rw [List.range_succ, List.filter_append]
        by_cases hp : p = nd.PPID
        · subst hp
          have hsum := sumCounts_stepStore_self st.groups nd.PPID nd.Signature nd.Username
            (applyMetrics opts nd
              { Count := 1, FirstIndex := k, FullPath := "", Indices := [k], Owner := nd.Username })
          rw [ih2, if_pos hcls] at hsum
          have hcount : (applyMetrics opts nd
              { Count := 1, FirstIndex := k, FullPath := "",
                Indices := [k], Owner := nd.Username }).Count = 1 := by
            rw [applyMetrics_new opts nodes k nd.Username]
            rfl
          rw [hcount] at hsum
          simp only [cntOf] at hsum
          have hfk : List.filter (fun j => decide ((nodes.getD j default).PPID = nd.PPID)) [k]
              = [k] := by
            simp only [List.filter_cons, List.filter_nil]
            simp
          have hI := ih4 nd.PPID
          rw [hfk, List.length_append]
          simp only [List.length_cons, List.length_nil]
          omega
        · have hsum := sumCounts_stepStore_ne st.groups nd.PPID nd.Signature nd.Username
            (applyMetrics opts nd
              { Count := 1, FirstIndex := k, FullPath := "", Indices := [k], Owner := nd.Username })
            hp
          rw [hsum, ih4]
          have hfk : List.filter (fun j => decide ((nodes.getD j default).PPID = p)) [k]
              = [] := by
            simp only [List.filter_cons, List.filter_nil]
            have hnp : ¬ ((nodes.getD k default).PPID = p) := by
              rw [← hnd]
              exact fun hcontra => hp hcontra.symm
            simp only [List.getD_eq_getElem?_getD] at hnp
            simp [hnp]
          rw [hfk, List.append_nil]
    · -- the node joins an existing group
      have hscs : lookup3 (ensureKey nd.PPID nd.Signature (ensureParent nd.PPID st.groups))
          nd.PPID nd.Signature nd.Username
          = some (mkGroup opts nodes (classIndices nodes k nd.PPID nd.Signature nd.Username)
              nd.Username) := by
        rw [hsc, ih2, if_neg hcls]
      have hstep : initCompactStep opts nodes st k =
          { groups := store3 nd.PPID nd.Signature nd.Username
              (applyMetrics opts nd
                { mkGroup opts nodes (classIndices nodes k nd.PPID nd.Signature nd.Username)
                    nd.Username with
                  Count := (mkGroup opts nodes
                    (classIndices nodes k nd.PPID nd.Signature nd.Username) nd.Username).Count + 1,
                  Indices := (mkGroup opts nodes
                    (classIndices nodes k nd.PPID nd.Signature nd.Username) nd.Username).Indices
                    ++ [k] })
              (ensureKey nd.PPID nd.Signature (ensureParent nd.PPID st.groups)),
            skips := st.skips ++ [k] } := by
        unfold initCompactStep
        rw [if_neg hskip]
        simp only [← hnd, hscs]
      rw [hstep]
      rw [applyMetrics_extend opts nodes _ k nd.Username hcls]
      refine ⟨?_, ?_, ?_, ?_⟩
      · intro j hj
        rcases List.mem_append.1 hj with hj | hj
        · exact Nat.lt_succ_of_lt (ih1 j hj)
        · simp at hj; omega
      · intro p key ow
        rw [lookup3_stepStore, classIndices_succ]
        by_cases htr : p = nd.PPID ∧ key = nd.Signature ∧ ow = nd.Username
        · obtain ⟨hp, hk, ho⟩ := htr
          subst hp; subst hk; subst ho
          rw [if_pos ⟨rfl, rfl, rfl⟩, if_pos hattrs]
          have hne2 : classIndices nodes k nd.PPID nd.Signature nd.Username ++ [k] ≠ [] := by
            simp
          rw [if_neg hne2]
        · have hne : ¬ nodeAttrs nodes k = (p, key, ow) := by
            rw [hattrs]
            intro hcontra
            apply htr
            rw [Prod.mk.injEq, Prod.mk.injEq] at hcontra
            exact ⟨hcontra.1.symm, hcontra.2.1.symm, hcontra.2.2.symm⟩
          rw [if_neg htr, if_neg hne, List.append_nil]
          exact ih2 p key ow
      · exact wfGroups_store3
          (wfGroups_ensureKey (wfGroups_ensureParent ih3 nd.PPID) nd.PPID nd.Signature)
          nd.PPID nd.Signature nd.Username _
      · intro p
        dsimp only
        rw [List.range_succ, List.filter_append]
        by_cases hp : p = nd.PPID
        · subst hp
          have hsum := sumCounts_stepStore_self st.groups nd.PPID nd.Signature nd.Username
            (mkGroup opts nodes
              (classIndices nodes k nd.PPID nd.Signature nd.Username ++ [k]) nd.Username)
          rw [ih2, if_neg hcls] at hsum
          have hc1 : cntOf (some (mkGroup opts nodes
              (classIndices nodes k nd.PPID nd.Signature nd.Username) nd.Username))
              = (classIndices nodes k nd.PPID nd.Signature nd.Username).length := rfl
          have hc2 : (mkGroup opts nodes
              (classIndices nodes k nd.PPID nd.Signature nd.Username ++ [k]) nd.Username).Count
              = (classIndices nodes k nd.PPID nd.Signature nd.Username).length + 1 := by
            simp [mkGroup]
          rw [hc1, hc2] at hsum
          have hfk : List.filter (fun j => decide ((nodes.getD j default).PPID = nd.PPID)) [k]
              = [k] := by
            simp only [List.filter_cons, List.filter_nil]
            simp
          have hI := ih4 nd.PPID
          rw [hfk, List.length_append]
          simp only [List.length_cons, List.length_nil]
          omega
        · have hsum := sumCounts_stepStore_ne st.groups nd.PPID nd.Signature nd.Username
            (mkGroup opts nodes
              (classIndices nodes k nd.PPID nd.Signature nd.Username ++ [k]) nd.Username)
            hp
          rw [hsum, ih4]
          have hfk : List.filter (fun j => decide ((nodes.getD j default).PPID = p)) [k]
              = [] := by
            simp only [List.filter_cons, List.filter_nil]
            have hnp : ¬ ((nodes.getD k default).PPID = p) := by
              rw [← hnd]
              exact fun hcontra => hp hcontra.symm
            simp only [List.getD_eq_getElem?_getD] at hnp
            simp [hnp]
          rw [hfk, List.append_nil]

/-! ## Bridging lemmas for the claim statements -/

theorem initCompactMode_eq_cmAfter (opts : DisplayOptions) (nodes : List Process) :
    ProcessTree.InitCompactMode
        { Nodes := nodes, DisplayOptions := opts, ProcessGroups := [] }
      = cmAfter opts nodes nodes.length := rfl

theorem map_getD_range (nodes : List Process) :
    (List.range nodes.length).map (fun j => nodes.getD j default) = nodes := by
  apply List.ext_getElem
  · simp
  · intro i h1 h2
    simp [List.getElem?_eq_getElem, h2]

theorem countP_range (nodes : List Process) (f : Process → Bool) :
    ((List.range nodes.length).filter (fun j => f (nodes.getD j default))).length
      = (nodes.filter f).length := by
  conv_rhs => rw [← map_getD_range nodes]
  rw [List.filter_map]
  simp [Function.comp_def]

theorem head?_eq_headD {α : Type} [Inhabited α] (l : List α) (d : α) (h : l ≠ []) :
    l.head? = some (l.headD d) := by
  cases l with
  | nil => exact absurd rfl h
  | cons a t => rfl

/-- Flattening a nested association structure with duplicate-free keys at
both levels gives duplicate-free `(outer, inner)` key pairs. -/
theorem nested_pairs_nodup (m1 : List (String × List (String × ProcessGroup)))
    (h1 : (m1.map Prod.fst).Nodup)
    (h2 : ∀ e2 ∈ m1, ((e2.2).map Prod.fst).Nodup) :
    ((m1.map (fun e => e.2.map (fun e2 => (e.1, e2.1)))).flatten).Nodup := by
  induction m1 with
  | nil => simp
  | cons e t ih =>
    obtain ⟨k1, v1⟩ := e
    simp only [List.map_cons, List.flatten_cons]
    rw [List.nodup_append]
    simp only [List.map_cons, List.nodup_cons] at h1
    refine ⟨?_, ?_, ?_⟩
    · have hv1 : (v1.map Prod.fst).Nodup := by
        simpa using h2 (k1, v1) (List.mem_cons_self _ _)
      have hmm : (v1.map (fun e2 => ((k1, v1).1, e2.1)))
          = (v1.map Prod.fst).map (fun s => (k1, s)) := by
        simp
      rw [hmm]
      exact hv1.map (fun a b hab => by simpa using hab)
    · exact ih h1.2 (fun e2 he2 => h2 e2 (List.mem_cons_of_mem _ he2))
    · intro pr hpr1 hpr2
      rcases List.mem_flatten.1 hpr2 with ⟨l2, hl2, hpl2⟩
      rcases List.mem_map.1 hl2 with ⟨e2, he2, rfl⟩
      rcases List.mem_map.1 hpl2 with ⟨e3, _, hpr3⟩
      rcases List.mem_map.1 hpr1 with ⟨e4, _, heq⟩
      have hfst : e2.1 = k1 := by
        have hx : pr.1 = e2.1 := by rw [← hpr3]
        have hy : pr.1 = k1 := by rw [← heq]
        rw [← hx, hy]
      exact h1.1 (hfst ▸ List.mem_map_of_mem Prod.fst he2)

theorem keysUnder_nodup {gs : Groups} (h : wfGroups gs) (p : Int) :
    (keysUnder gs p).Nodup := by
  obtain ⟨h1, h2⟩ := wfGroups_inner h p
  unfold keysUnder
  exact nested_pairs_nodup _ h1 h2

/-! ## Concrete inputs used by counterexamples and witnesses -/

/-- A process record with the fields the grouping pass reads. -/
def sampleProc (pid ppid : Int) (sig ow : String) (age : Int) : Process :=
  { PID := pid, PPID := ppid, PGID := 0, Command := "", Args := [], Signature := sig,
    Username := ow, Age := age, CPUPercent := 0, CreateTime := 0,
    MemoryInfo := { RSS := 0 }, MemoryPercent := 0, NumThreads := 0,
    UIDs := [], GIDs := [], Groups := [] }

/-- Three siblings of parent 50: two identical `bash` children separated by a
different `vim` child. -/
def c2nodes : List Process :=
  [sampleProc 51 50 "bash" "u" 1, sampleProc 52 50 "vim" "u" 2,
   sampleProc 53 50 "bash" "u" 3]

/-- The group the pass builds for the two `bash` children of `c2nodes`. -/
def c3g : ProcessGroup :=
  { Count := 2, FirstIndex := 0, FullPath := "", Indices := [0, 2], Owner := "u" }

/-- One process with a positive age. -/
def c4nodes : List Process := [sampleProc 60 50 "x" "u" 5]

/-- Display options with the age, memory and thread show-flags enabled.
(The cpu flag stays off so that the witness evaluates without rational
arithmetic, which the kernel cannot reduce.) -/
def c4opts : DisplayOptions :=
  { ShowProcessAge := true, ShowMemoryUsage := true, ShowNumThreads := true }

/-- The group built for `c4nodes` under `c4opts`. -/
def c4g : ProcessGroup :=
  { Count := 1, FirstIndex := 0, FullPath := "", Indices := [0], Owner := "u",
    Age := 5, CPUPercent := 0, MemoryUsage := 0, NumThreads := 0 }

/-! ## Claim theorems: compact-mode grouping -/

/-- Claim C1: for every process list, after compact-mode grouping
(`InitCompactMode` on a fresh tree), for each parent PID the sum of `Count`
over all groups stored under that parent equals the number of processes whose
`PPID` is that parent, and no two distinct groups under the same parent share
the same `(signature, owner)` key. -/
theorem initCompactMode_counts_and_keys (opts : DisplayOptions)
    (nodes : List Process) (p : Int) :
    sumCounts ((ProcessTree.InitCompactMode
        { Nodes := nodes, DisplayOptions := opts, ProcessGroups := [] }).groups) p
      = (nodes.filter (fun nd => decide (nd.PPID = p))).length ∧
    (keysUnder ((ProcessTree.InitCompactMode
        { Nodes := nodes, DisplayOptions := opts, ProcessGroups := [] }).groups) p).Nodup := by
  rw [initCompactMode_eq_cmAfter]
  obtain ⟨h1, h2, h3, h4⟩ := compact_invariant opts nodes nodes.length
  constructor
  · rw [h4 p, countP_range nodes (fun nd => decide (nd.PPID = p))]
  · exact keysUnder_nodup h3 p

/-- Claim C2 counterexample: the loop folds identical siblings even when they
are separated by a different sibling in list order.  In `c2nodes` the two
`bash` children (indices 0 and 2) are separated by a `vim` child (index 1),
yet both end up in one group with `Count = 2` — refuting the claim that
non-consecutive identical siblings are not folded into one group. -/
theorem initCompactMode_nonadjacent_cex :
    (lookup3 ((ProcessTree.InitCompactMode
        { Nodes := c2nodes, DisplayOptions := {}, ProcessGroups := [] }).groups)
        50 "bash" "u").map (fun g => (g.Count, g.Indices)) = some (2, [0, 2])
    ∧ (c2nodes.getD 0 default).Signature = (c2nodes.getD 2 default).Signature
    ∧ (c2nodes.getD 1 default).Signature ≠ (c2nodes.getD 0 default).Signature := by
  decide

/-- Claim C2 (amended): the grouping pass keys only on
`(PPID, signature, owner)` and therefore folds ALL identical siblings under a
parent into one group, regardless of adjacency: any two indices with equal
parent, signature and owner end up in the same group's member list. -/
theorem initCompactMode_groups_all_identical_siblings (opts : DisplayOptions)
    (nodes : List Process) (i j : Nat) (hij : i < j) (hjn : j < nodes.length)
    (hpar : (nodes.getD i default).PPID = (nodes.getD j default).PPID)
    (hsig : (nodes.getD i default).Signature = (nodes.getD j default).Signature)
    (hown : (nodes.getD i default).Username = (nodes.getD j default).Username) :
    ∃ g, lookup3 ((ProcessTree.InitCompactMode
          { Nodes := nodes, DisplayOptions := opts, ProcessGroups := [] }).groups)
          (nodes.getD i default).PPID (nodes.getD i default).Signature
          (nodes.getD i default).Username = some g
      ∧ i ∈ g.Indices ∧ j ∈ g.Indices := by
  rw [initCompactMode_eq_cmAfter]
  obtain ⟨_, h2, _, _⟩ := compact_invariant opts nodes nodes.length
  have hiC : i ∈ classIndices nodes nodes.length (nodes.getD i default).PPID
      (nodes.getD i default).Signature (nodes.getD i default).Username := by
    unfold classIndices
    rw [List.mem_filter]
    refine ⟨List.mem_range.2 (lt_trans hij hjn), ?_⟩
    simp [nodeAttrs]
  have hjC : j ∈ classIndices nodes nodes.length (nodes.getD i default).PPID
      (nodes.getD i default).Signature (nodes.getD i default).Username := by
    unfold classIndices
    rw [List.mem_filter]
    refine ⟨List.mem_range.2 hjn, ?_⟩
    simp only [nodeAttrs, decide_eq_true_eq, Prod.mk.injEq]
    exact ⟨hpar.symm, hsig.symm, hown.symm⟩
  have hcls : classIndices nodes nodes.length (nodes.getD i default).PPID
      (nodes.getD i default).Signature (nodes.getD i default).Username ≠ [] := by
    intro hc
    rw [hc] at hiC
    exact absurd hiC (List.not_mem_nil i)
  refine ⟨mkGroup opts nodes (classIndices nodes nodes.length (nodes.getD i default).PPID
      (nodes.getD i default).Signature (nodes.getD i default).Username)
      (nodes.getD i default).Username, ?_, hiC, hjC⟩
  rw [h2, if_neg hcls]

/-- Claim C2 witness: the amended theorem applied to `c2nodes` at the two
separated `bash` indices 0 and 2. -/
theorem initCompactMode_groups_all_identical_siblings_witness :
    ∃ g, lookup3 ((ProcessTree.InitCompactMode
          { Nodes := c2nodes, DisplayOptions := {}, ProcessGroups := [] }).groups)
          (c2nodes.getD 0 default).PPID (c2nodes.getD 0 default).Signature
          (c2nodes.getD 0 default).Username = some g
      ∧ 0 ∈ g.Indices ∧ 2 ∈ g.Indices :=
  initCompactMode_groups_all_identical_siblings {} c2nodes 0 2
    (by decide) (by decide) (by decide) (by decide) (by decide)

/-- Claim C3: every group stored in the map satisfies `Count` = length of its
member-index list, `FirstIndex` = first member, and the group's `Owner` and
the signature key it is stored under equal every member's `Username` and
`Signature`. -/
theorem initCompactMode_group_wellformed (opts : DisplayOptions)
    (nodes : List Process) (p : Int) (key ow : String) (g : ProcessGroup)
    (h : lookup3 ((ProcessTree.InitCompactMode
        { Nodes := nodes, DisplayOptions := opts, ProcessGroups := [] }).groups)
        p key ow = some g) :
    g.Count = g.Indices.length ∧
    g.Indices.head? = some g.FirstIndex ∧
    g.Owner = ow ∧
    ∀ i ∈ g.Indices,
      (nodes.getD i default).Username = ow ∧ (nodes.getD i default).Signature = key := by
  rw [initCompactMode_eq_cmAfter] at h
  obtain ⟨_, h2, _, _⟩ := compact_invariant opts nodes nodes.length
  rw [h2 p key ow] at h
  by_cases hcls : classIndices nodes nodes.length p key ow = []
  · rw [if_pos hcls] at h
    exact absurd h (by simp)
  · rw [if_neg hcls] at h
    have hg : mkGroup opts nodes (classIndices nodes nodes.length p key ow) ow = g :=
      Option.some.inj h
    subst hg
    refine ⟨rfl, head?_eq_headD _ 0 hcls, rfl, ?_⟩
    intro i hi
    have hi2 : i ∈ classIndices nodes nodes.length p key ow := hi
    unfold classIndices at hi2
    rw [List.mem_filter] at hi2
    have := hi2.2
    simp only [nodeAttrs, decide_eq_true_eq, Prod.mk.injEq] at this
    exact ⟨this.2.2, this.2.1⟩

/-- Claim C3 witness: the two-member `bash` group of `c2nodes`. -/
theorem initCompactMode_group_wellformed_witness :
    c3g.Count = c3g.Indices.length ∧
    c3g.Indices.head? = some c3g.FirstIndex ∧
    c3g.Owner = "u" ∧
    ∀ i ∈ c3g.Indices,
      (c2nodes.getD i default).Username = "u" ∧ (c2nodes.getD i default).Signature = "bash" :=
  initCompactMode_group_wellformed {} c2nodes 50 "bash" "u" c3g (by decide)

/-- Claim C4 counterexample: the metric aggregates are only computed when the
corresponding show-flag is enabled.  With all show-flags off, the single
member of `c4nodes` has age 5 but the stored group's `Age` stays 0 — refuting
the claim that for every display options the group's `Age` is the maximum of
the members' ages. -/
theorem initCompactMode_metrics_flag_cex :
    (lookup3 ((ProcessTree.InitCompactMode
        { Nodes := c4nodes, DisplayOptions := {}, ProcessGroups := [] }).groups)
        50 "x" "u").map (fun g => (g.Age, g.Indices)) = some (0, [0])
    ∧ (c4nodes.getD 0 default).Age = 5 ∧ (0 : Int) ≠ 5 := by
  decide

/-- Claim C4 (amended): each stored group aggregates its members' metrics
only under the corresponding show-flag: `Age` is the running maximum (from 0)
of the members' ages when `ShowProcessAge` is set and 0 otherwise;
`CPUPercent` is the sum of the members' cpu percentages when `ShowCpuPercent`
is set and 0 otherwise; `MemoryUsage` / `NumThreads` are the 64-bit / 32-bit
wrapping sums of the members' RSS / thread counts when their flags are set
and 0 otherwise. -/
theorem initCompactMode_metrics_aggregation (opts : DisplayOptions)
    (nodes : List Process) (p : Int) (key ow : String) (g : ProcessGroup)
    (h : lookup3 ((ProcessTree.InitCompactMode
        { Nodes := nodes, DisplayOptions := opts, ProcessGroups := [] }).groups)
        p key ow = some g) :
    g.Age = (if opts.ShowProcessAge then ageFold nodes g.Indices else 0) ∧
    g.CPUPercent = (if opts.ShowCpuPercent then cpuFold nodes g.Indices else 0) ∧
    g.MemoryUsage = (if opts.ShowMemoryUsage then memFold nodes g.Indices else 0) ∧
    g.NumThreads = (if opts.ShowNumThreads then thrFold nodes g.Indices else 0) := by
  rw [initCompactMode_eq_cmAfter] at h
  obtain ⟨_, h2, _, _⟩ := compact_invariant opts nodes nodes.length
  rw [h2 p key ow] at h
  by_cases hcls : classIndices nodes nodes.length p key ow = []
  · rw [if_pos hcls] at h
    exact absurd h (by simp)
  · rw [if_neg hcls] at h
    have hg : mkGroup opts nodes (classIndices nodes nodes.length p key ow) ow = g :=
      Option.some.inj h
    subst hg
    exact ⟨rfl, rfl, rfl, rfl⟩

/-- Claim C4 witness: under age/memory/thread-flag options the single-member
group of `c4nodes` carries its member's age and summed metrics. -/
theorem initCompactMode_metrics_aggregation_witness :
    c4g.Age = (if c4opts.ShowProcessAge then ageFold c4nodes c4g.Indices else 0) ∧
    c4g.CPUPercent = (if c4opts.ShowCpuPercent then cpuFold c4nodes c4g.Indices else 0) ∧
    c4g.MemoryUsage = (if c4opts.ShowMemoryUsage then memFold c4nodes c4g.Indices else 0) ∧
    c4g.NumThreads = (if c4opts.ShowNumThreads then thrFold c4nodes c4g.Indices else 0) :=
  initCompactMode_metrics_aggregation c4opts c4nodes 50 "x" "u" c4g (by decide)

/-! ## Refinement: the standalone `InitCompactMode` against the tree method

The two loop bodies differ only in the flag-guarded metric aggregation, so
the states stay equal after erasing the four metric fields. -/

/-- Erase the aggregated metric fields of a group. -/
def stripGroup (g : ProcessGroup) : ProcessGroup :=
  { g with Age := 0, CPUPercent := 0, MemoryUsage := 0, NumThreads := 0 }

/-- Map a function over the values of an association list. -/
def mapVals {κ β γ : Type} (f : β → γ) (l : List (κ × β)) : List (κ × γ) :=
  l.map (fun e => (e.1, f e.2))

/-- Erase the metric fields of every stored group. -/
def stripGroups (gs : Groups) : Groups :=
  mapVals (mapVals (mapVals stripGroup)) gs

theorem alookup_mapVals {κ β γ : Type} [DecidableEq κ] (f : β → γ) (k : κ)
    (l : List (κ × β)) : alookup k (mapVals f l) = (alookup k l).map f := by
  induction l with
  | nil => simp [alookup, mapVals]
  | cons e t ih =>
    obtain ⟨k1, v1⟩ := e
    by_cases h : k = k1
    · simp [alookup, mapVals, h]
    · simpa [alookup, mapVals, h] using ih

theorem aupdate_mapVals {κ β γ : Type} [DecidableEq κ] (f : β → γ) (k : κ) (v : β)
    (l : List (κ × β)) : aupdate k (f v) (mapVals f l) = mapVals f (aupdate k v l) := by
  induction l with
  | nil => simp [aupdate, mapVals]
  | cons e t ih =>
    obtain ⟨k1, v1⟩ := e
    by_cases h : k = k1
    · simp [aupdate, mapVals, h]
    · simpa [aupdate, mapVals, h] using ih

theorem getD_strip_outer (gs : Groups) (p : Int) :
    (alookup p (stripGroups gs)).getD []
      = mapVals (mapVals stripGroup) ((alookup p gs).getD []) := by
  unfold stripGroups
  rw [alookup_mapVals]
  cases alookup p gs with
  | none => simp [mapVals]
  | some m1 => simp

theorem getD_strip_inner (m1 : List (String × List (String × ProcessGroup)))
    (key : String) :
    (alookup key (mapVals (mapVals stripGroup) m1)).getD []
      = mapVals stripGroup ((alookup key m1).getD []) := by
  rw [alookup_mapVals]
  cases alookup key m1 with
  | none => simp [mapVals]
  | some m2 => simp

theorem lookup3_strip (gs : Groups) (p : Int) (key ow : String) :
    lookup3 (stripGroups gs) p key ow = (lookup3 gs p key ow).map stripGroup := by
  rw [lookup3_eq, lookup3_eq, getD_strip_outer, getD_strip_inner, alookup_mapVals]

theorem ensureParent_strip (p : Int) (gs : Groups) :
    ensureParent p (stripGroups gs) = stripGroups (ensureParent p gs) := by
  unfold ensureParent stripGroups
  rw [alookup_mapVals]
  cases alookup p gs with
  | some m1 => simp
  | none =>
    simp only [Option.map_none]
    have := aupdate_mapVals (mapVals (mapVals stripGroup)) p
      ([] : List (String × List (String × ProcessGroup))) gs
    simpa [mapVals] using this

theorem ensureKey_strip (p : Int) (key : String) (gs : Groups) :
    ensureKey p key (stripGroups gs) = stripGroups (ensureKey p key gs) := by
  unfold ensureKey
  rw [getD_strip_outer, alookup_mapVals]
  cases alookup key ((alookup p gs).getD []) with
  | some m2 => simp
  | none =>
    simp only [Option.map_none]
    have h1 := aupdate_mapVals (mapVals stripGroup) key
      ([] : List (String × ProcessGroup)) ((alookup p gs).getD [])
    have h2 := aupdate_mapVals (mapVals (mapVals stripGroup)) p
      (aupdate key [] ((alookup p gs).getD [])) gs
    unfold stripGroups
    rw [← h2, ← h1]
    simp [mapVals]

theorem store3_strip (p : Int) (key ow : String) (g : ProcessGroup) (gs : Groups) :
    store3 p key ow (stripGroup g) (stripGroups gs)
      = stripGroups (store3 p key ow g gs) := by
  unfold store3
  rw [getD_strip_outer, getD_strip_inner]
  have h3 := aupdate_mapVals stripGroup ow g
    ((alookup key ((alookup p gs).getD [])).getD [])
  have h2 := aupdate_mapVals (mapVals stripGroup) key
    (aupdate ow g ((alookup key ((alookup p gs).getD [])).getD []))
    ((alookup p gs).getD [])
  have h1 := aupdate_mapVals (mapVals (mapVals stripGroup)) p
    (aupdate key
      (aupdate ow g ((alookup key ((alookup p gs).getD [])).getD []))
      ((alookup p gs).getD []))
    gs
  unfold stripGroups
  rw [← h1, ← h2, ← h3]

theorem stripGroup_applyMetrics (opts : DisplayOptions) (node : Process)
    (g : ProcessGroup) : stripGroup (applyMetrics opts node g) = stripGroup g := by
  by_cases hA : opts.ShowProcessAge <;> by_cases hC : opts.ShowCpuPercent <;>
    by_cases hM : opts.ShowMemoryUsage <;> by_cases hT : opts.ShowNumThreads <;>
    simp [applyMetrics, stripGroup, hA, hC, hM, hT]

/-- One loop iteration of the standalone function on the stripped state
mirrors one iteration of the method. -/
theorem standalone_step_rel (opts : DisplayOptions) (nodes : List Process)
    (st : CMState) (k : Nat) :
    initCompactStepStandalone nodes
        { groups := stripGroups st.groups, skips := st.skips } k
      = { groups := stripGroups ((initCompactStep opts nodes st k).groups),
          skips := (initCompactStep opts nodes st k).skips } := by
  unfold initCompactStepStandalone initCompactStep
  by_cases hskip : k ∈ st.skips
  · simp [hskip]
  · simp only [hskip, if_false, if_neg hskip]
    rw [ensureParent_strip, ensureKey_strip, lookup3_strip]
    cases hl : lookup3
        (ensureKey (nodes.getD k default).PPID (nodes.getD k default).Signature
          (ensureParent (nodes.getD k default).PPID st.groups))
        (nodes.getD k default).PPID (nodes.getD k default).Signature
        (nodes.getD k default).Username with
    | none =>
      simp only [Option.map_none']
      rw [← store3_strip]
      have : stripGroup (applyMetrics opts (nodes.getD k default)
          { Count := 1, FirstIndex := k, FullPath := "",
            Indices := [k], Owner := (nodes.getD k default).Username })
          = { Count := 1, FirstIndex := k, FullPath := "",
              Indices := [k], Owner := (nodes.getD k default).Username } := by
        rw [stripGroup_applyMetrics]
        rfl
      rw [this]
    | some g =>
      simp only [Option.map_some']
      rw [← store3_strip]
      have : stripGroup (applyMetrics opts (nodes.getD k default)
          { g with Count := g.Count + 1, Indices := g.Indices ++ [k] })
          = { Count := g.Count + 1, FirstIndex := g.FirstIndex,
              FullPath := g.FullPath, Indices := g.Indices ++ [k],
              Owner := g.Owner } := by
        rw [stripGroup_applyMetrics]
        rfl
      rw [this]
      rfl

/-- The state of the standalone loop after `k` iterations. -/
def saAfter (nodes : List Process) (k : Nat) : CMState :=
  (List.range k).foldl (initCompactStepStandalone nodes) { groups := [], skips := [] }

theorem saAfter_succ (nodes : List Process) (k : Nat) :
    saAfter nodes (k + 1) = initCompactStepStandalone nodes (saAfter nodes k) k := by
  simp [saAfter, List.range_succ]

theorem saAfter_eq_strip (opts : DisplayOptions) (nodes : List Process) (k : Nat) :
    saAfter nodes k
      = { groups := stripGroups ((cmAfter opts nodes k).groups),
          skips := (cmAfter opts nodes k).skips } := by
  induction k with
  | zero => rfl
  | succ k ih =>
    rw [saAfter_succ, cmAfter_succ, ih]
    exact standalone_step_rel opts nodes (cmAfter opts nodes k) k

theorem standaloneInitCompactMode_eq_saAfter (nodes : List Process) :
    InitCompactMode nodes = saAfter nodes nodes.length := rfl

/-- Claim C10: for every process list (and any display options for the
method), the standalone `InitCompactMode` and the `ProcessTree.InitCompactMode`
method on a freshly built tree compute the same grouping: for every
`(parent PID, signature, owner)` key both produce a group with the same
`Count`, `FirstIndex` and member-index list, and both mark exactly the same
non-representative member indices as skipped. -/
theorem standalone_method_same_grouping (opts : DisplayOptions)
    (nodes : List Process) (p : Int) (key ow : String) :
    (lookup3 ((ProcessTree.InitCompactMode
        { Nodes := nodes, DisplayOptions := opts, ProcessGroups := [] }).groups)
        p key ow).map (fun g => (g.Count, g.FirstIndex, g.Indices))
      = (lookup3 ((InitCompactMode nodes).groups) p key ow).map
          (fun g => (g.Count, g.FirstIndex, g.Indices))
    ∧ (ProcessTree.InitCompactMode
        { Nodes := nodes, DisplayOptions := opts, ProcessGroups := [] }).skips
      = (InitCompactMode nodes).skips := by
  rw [initCompactMode_eq_cmAfter, standaloneInitCompactMode_eq_saAfter,
    saAfter_eq_strip opts nodes nodes.length]
  constructor
  · rw [lookup3_strip]
    cases lookup3 ((cmAfter opts nodes nodes.length).groups) p key ow with
    | none => rfl
    | some g => rfl
  · rfl

/-! ## `sort.Slice`: the Go standard library pdqsort

The six `SortProcsBy*` functions call `sort.Slice`, i.e. Go's pattern-
defeating quicksort (`sort/zsortfunc.go`).  It is transcribed here over
lists with index-based access; loops that are not structurally decreasing
carry explicit fuel, always passed large enough that it never runs out on
the executions the theorems are about (a single driver step for lists of at
most 12 elements, and concrete evaluations). -/

/-- Read into a slice (indices produced by the algorithm are in bounds). -/
def lget {α : Type} [Inhabited α] (l : List α) (i : Nat) : α := l.getD i default

/-- `data.Swap(i, j)`. -/
def lswap {α : Type} [Inhabited α] (l : List α) (i j : Nat) : List α :=
  (l.set i (lget l j)).set j (lget l i)

/-- Go `insertionSort_func`, bubbling each element left through the sorted
prefix while it is strictly less than its predecessor; the prefix is kept in
reversed order here.  Inserting stops at the first predecessor that is not
greater. -/
def insRev {α : Type} (lt : α → α → Bool) (x : α) : List α → List α
  | [] => [x]
  | y :: r => if lt x y then y :: insRev lt x r else x :: y :: r

/-- The outer insertion-sort loop: consume elements left to right, keeping
the already-sorted prefix (reversed) as the accumulator. -/
def isortRevAux {α : Type} (lt : α → α → Bool) : List α → List α → List α
  | acc, [] => acc
  | acc, x :: xs => isortRevAux lt (insRev lt x acc) xs

/-- Insertion sort of a whole list, as Go performs it on a slice. -/
def isortF {α : Type} (lt : α → α → Bool) (l : List α) : List α :=
  (isortRevAux lt [] l).reverse

/-- Insertion sort of the range `[a, b)` in place. -/
def isortRange {α : Type} (lt : α → α → Bool) (a b : Nat) (l : List α) : List α :=
  l.take a ++ isortF lt ((l.drop a).take (b - a)) ++ l.drop b

/-- `reverseRange_func`. -/
def revRangeAux {α : Type} [Inhabited α] (fuel : Nat) (l : List α) (i j : Nat) : List α :=
  match fuel with
  | 0 => l
  | fuel + 1 => if i < j then revRangeAux fuel (lswap l i j) (i + 1) (j - 1) else l

def revRange {α : Type} [Inhabited α] (a b : Nat) (l : List α) : List α :=
  revRangeAux (l.length + 1) l a (b - 1)

/-- `order2_func`: order two indices by their elements, counting swaps. -/
def order2 {α : Type} [Inhabited α] (lt : α → α → Bool) (l : List α)
    (a b swaps : Nat) : Nat × Nat × Nat :=
  if lt (lget l b) (lget l a) then (b, a, swaps + 1) else (a, b, swaps)

/-- `median_func`: index of the median of three elements, counting swaps. -/
def median3 {α : Type} [Inhabited α] (lt : α → α → Bool) (l : List α)
    (a b c swaps : Nat) : Nat × Nat :=
  let (a1, b1, s1) := order2 lt l a b swaps
  let (b2, _, s2) := order2 lt l b1 c s1
  let (_, b3, s3) := order2 lt l a1 b2 s2
  (b3, s3)

/-- `medianAdjacent_func`. -/
def medianAdjacent {α : Type} [Inhabited α] (lt : α → α → Bool) (l : List α)
    (a swaps : Nat) : Nat × Nat :=
  median3 lt l (a - 1) a (a + 1) swaps

inductive SortedHint where
  | increasing
  | decreasing
  | unknown
  deriving DecidableEq, Repr

/-- The `switch swaps` at the end of `choosePivot_func` (`maxSwaps = 12`). -/
def hintOf (swaps : Nat) : SortedHint :=
  if swaps = 0 then SortedHint.increasing
  else if swaps = 12 then SortedHint.decreasing
  else SortedHint.unknown

/-- `choosePivot_func` (`shortestNinther = 50`). -/
def choosePivot {α : Type} [Inhabited α] (lt : α → α → Bool) (l : List α)
    (a b : Nat) : Nat × SortedHint :=
  let len := b - a
  let i0 := a + len / 4 * 1
  let j0 := a + len / 4 * 2
  let k0 := a + len / 4 * 3
  if 8 ≤ len then
    if 50 ≤ len then
      let (i1, s1) := medianAdjacent lt l i0 0
      let (j1, s2) := medianAdjacent lt l j0 s1
      let (k1, s3) := medianAdjacent lt l k0 s2
      let (j2, s4) := median3 lt l i1 j1 k1 s3
      (j2, hintOf s4)
    else
      let (j2, s4) := median3 lt l i0 j0 k0 0
      (j2, hintOf s4)
  else (j0, SortedHint.increasing)

/-- Advance `i` while `i <= j && data.Less(i, a)`. -/
def partScanI {α : Type} [Inhabited α] (lt : α → α → Bool) (l : List α)
    (aIdx : Nat) : Nat → Nat → Nat → Nat
  | 0, i, _ => i
  | fuel + 1, i, j =>
    if i ≤ j ∧ lt (lget l i) (lget l aIdx) then partScanI lt l aIdx fuel (i + 1) j
    else i

/-- Retreat `j` while `i <= j && !data.Less(j, a)`. -/
def partScanJ {α : Type} [Inhabited α] (lt : α → α → Bool) (l : List α)
    (aIdx : Nat) : Nat → Nat → Nat → Nat
  | 0, _, j => j
  | fuel + 1, i, j =>
    if i ≤ j ∧ ¬ lt (lget l j) (lget l aIdx) then partScanJ lt l aIdx fuel i (j - 1)
    else j

/-- The steady-state loop of `partition_func`. -/
def partMain {α : Type} [Inhabited α] (lt : α → α → Bool) (aIdx : Nat) :
    Nat → List α → Nat → Nat → List α × Nat
  | 0, l, _, j => (l, j)
  | fuel + 1, l, i, j =>
    let i2 := partScanI lt l aIdx (l.length + 1) i j
    let j2 := partScanJ lt l aIdx (l.length + 1) i2 j
    if i2 > j2 then (l, j2)
    else partMain lt aIdx fuel (lswap l i2 j2) (i2 + 1) (j2 - 1)

/-- `partition_func`: returns the new list, the pivot position and the
`alreadyPartitioned` flag. -/
def partitionGo {α : Type} [Inhabited α] (lt : α → α → Bool) (a b pivot : Nat)
    (l : List α) : List α × Nat × Bool :=
  let l := lswap l a pivot
  let i := a + 1
  let j := b - 1
  let i2 := partScanI lt l a (l.length + 1) i j
  let j2 := partScanJ lt l a (l.length + 1) i2 j
  if i2 > j2 then (lswap l j2 a, j2, true)
  else
    let l := lswap l i2 j2
    let (l2, jf) := partMain lt a (l.length + 1) l (i2 + 1) (j2 - 1)
    (lswap l2 jf a, jf, false)

/-- Advance `i` while `i <= j && !data.Less(a, i)`. -/
def partEqScanI {α : Type} [Inhabited α] (lt : α → α → Bool) (l : List α)
    (aIdx : Nat) : Nat → Nat → Nat → Nat
  | 0, i, _ => i
  | fuel + 1, i, j =>
    if i ≤ j ∧ ¬ lt (lget l aIdx) (lget l i) then partEqScanI lt l aIdx fuel (i + 1) j
    else i

/-- Retreat `j` while `i <= j && data.Less(a, j)`. -/
def partEqScanJ {α : Type} [Inhabited α] (lt : α → α → Bool) (l : List α)
    (aIdx : Nat) : Nat → Nat → Nat → Nat
  | 0, _, j => j
  | fuel + 1, i, j =>
    if i ≤ j ∧ lt (lget l aIdx) (lget l j) then partEqScanJ lt l aIdx fuel i (j - 1)
    else j

/-- The loop of `partitionEqual_func`; returns the list and the final `i`. -/
def partEqMain {α : Type} [Inhabited α] (lt : α → α → Bool) (aIdx : Nat) :
    Nat → List α → Nat → Nat → List α × Nat
  | 0, l, i, _ => (l, i)
  | fuel + 1, l, i, j =>
    let i2 := partEqScanI lt l aIdx (l.length + 1) i j
    let j2 := partEqScanJ lt l aIdx (l.length + 1) i2 j
    if i2 > j2 then (l, i2)
    else partEqMain lt aIdx fuel (lswap l i2 j2) (i2 + 1) (j2 - 1)

/-- `partitionEqual_func`. -/
def partEqualGo {α : Type} [Inhabited α] (lt : α → α → Bool) (a b pivot : Nat)
    (l : List α) : List α × Nat :=
  let l := lswap l a pivot
  partEqMain lt a (l.length + 1) l (a + 1) (b - 1)

/-- The shift-smaller-to-the-left loop of `partialInsertionSort_func`. -/
def pInsShiftLeft {α : Type} [Inhabited α] (lt : α → α → Bool) :
    Nat → List α → Nat → List α
  | 0, l, _ => l
  | fuel + 1, l, j =>
    if 1 ≤ j ∧ lt (lget l j) (lget l (j - 1)) then
      pInsShiftLeft lt fuel (lswap l j (j - 1)) (j - 1)
    else l

/-- The shift-greater-to-the-right loop of `partialInsertionSort_func`. -/
def pInsShiftRight {α : Type} [Inhabited α] (lt : α → α → Bool) (b : Nat) :
    Nat → List α → Nat → List α
  | 0, l, _ => l
  | fuel + 1, l, j =>
    if j < b ∧ lt (lget l j) (lget l (j - 1)) then
      pInsShiftRight lt b fuel (lswap l j (j - 1)) (j + 1)
    else l

/-- Advance `i` while `i < b && !data.Less(i, i-1)`. -/
def pInsScan {α : Type} [Inhabited α] (lt : α → α → Bool) (l : List α) (b : Nat) :
    Nat → Nat → Nat
  | 0, i => i
  | fuel + 1, i =>
    if i < b ∧ ¬ lt (lget l i) (lget l (i - 1)) then pInsScan lt l b fuel (i + 1)
    else i

/-- `partialInsertionSort_func` (`maxSteps = 5`, `shortestShifting = 50`);
returns the list and whether the range ended up sorted. -/
def pInsSortAux {α : Type} [Inhabited α] (lt : α → α → Bool) (a b : Nat) :
    Nat → List α → Nat → List α × Bool
  | 0, l, _ => (l, false)
  | steps + 1, l, i =>
    let i2 := pInsScan lt l b (l.length + 1) i
    if i2 = b then (l, true)
    else if b - a < 50 then (l, false)
    else
      let l := lswap l i2 (i2 - 1)
      let l := if 2 ≤ i2 - a then pInsShiftLeft lt (l.length + 1) l (i2 - 1) else l
      let l := if 2 ≤ b - i2 then pInsShiftRight lt b (l.length + 1) l (i2 + 1) else l
      pInsSortAux lt a b steps l i2

def pInsSort {α : Type} [Inhabited α] (lt : α → α → Bool) (a b : Nat)
    (l : List α) : List α × Bool :=
  pInsSortAux lt a b 5 l (a + 1)

/-- One step of the `xorshift` generator seeded by the slice length. -/
def xorshiftStep (r : Nat) : Nat :=
  let r := (r ^^^ (r <<< 13)) % 2 ^ 64
  let r := r ^^^ (r >>> 7)
  (r ^^^ (r <<< 17)) % 2 ^ 64

/-- `breakPatterns_func`: three pseudo-random swaps around the midpoint. -/
def brkPatterns {α : Type} [Inhabited α] (a b : Nat) (l : List α) : List α :=
  let len := b - a
  if 8 ≤ len then
    let modulus := 2 ^ goBitsLen len
    let idx := a + len / 4 * 2 - 1
    let r1 := xorshiftStep len
    let o1 := r1 &&& (modulus - 1)
    let o1 := if o1 ≥ len then o1 - len else o1
    let l := lswap l (idx - 1) (a + o1)
    let r2 := xorshiftStep r1
    let o2 := r2 &&& (modulus - 1)
    let o2 := if o2 ≥ len then o2 - len else o2
    let l := lswap l idx (a + o2)
    let r3 := xorshiftStep r2
    let o3 := r3 &&& (modulus - 1)
    let o3 := if o3 ≥ len then o3 - len else o3
    lswap l (idx + 1) (a + o3)
  else l

/-- `siftDown_func`. -/
def siftDownAux {α : Type} [Inhabited α] (lt : α → α → Bool) (first hi : Nat) :
    Nat → List α → Nat → List α
  | 0, l, _ => l
  | fuel + 1, l, root =>
    let child := 2 * root + 1
    if child ≥ hi then l
    else
      let child :=
        if child + 1 < hi ∧ lt (lget l (first + child)) (lget l (first + child + 1))
        then child + 1 else child
      if ¬ lt (lget l (first + root)) (lget l (first + child)) then l
      else siftDownAux lt first hi fuel (lswap l (first + root) (first + child)) child

def siftDownGo {α : Type} [Inhabited α] (lt : α → α → Bool) (l : List α)
    (lo hi first : Nat) : List α :=
  siftDownAux lt first hi (hi + 1) l lo

/-- The heap-construction loop of `heapSort_func` (`i` descending). -/
def heapBuild {α : Type} [Inhabited α] (lt : α → α → Bool) (first hi : Nat) :
    Nat → List α → List α
  | 0, l => l
  | i + 1, l => heapBuild lt first hi i (siftDownGo lt l i hi first)

/-- The pop-maximum loop of `heapSort_func` (`i` descending). -/
def heapPop {α : Type} [Inhabited α] (lt : α → α → Bool) (first : Nat) :
    Nat → List α → List α
  | 0, l => l
  | i + 1, l => heapPop lt first i (siftDownGo lt (lswap l first (first + i)) 0 i first)

/-- `heapSort_func`. -/
def heapSortGo {α : Type} [Inhabited α] (lt : α → α → Bool) (a b : Nat)
    (l : List α) : List α :=
  heapPop lt a (b - a) (heapBuild lt a (b - a) ((b - a - 1) / 2 + 1) l)

/-- The driver `pdqsort_func` (`maxInsertion = 12`); the outer `for` loop and
the recursion on the shorter side both consume fuel. -/
def pdqLoop {α : Type} [Inhabited α] (lt : α → α → Bool) :
    Nat → List α → Nat → Nat → Nat → Bool → Bool → List α
  | 0, l, _, _, _, _, _ => l
  | fuel + 1, l, a, b, limit, wasBalanced, wasPartitioned =>
    let length := b - a
    if length ≤ 12 then isortRange lt a b l
    else if limit = 0 then heapSortGo lt a b l
    else
      let lim2 := if wasBalanced then limit else limit - 1
      let l := if wasBalanced then l else brkPatterns a b l
      let (pivot, hint) := choosePivot lt l a b
      let (l, pivot, hint) :=
        if hint = SortedHint.decreasing then
          (revRange a b l, (b - 1) - (pivot - a), SortedHint.increasing)
        else (l, pivot, hint)
      let pr :=
        if wasBalanced ∧ wasPartitioned ∧ hint = SortedHint.increasing then
          pInsSort lt a b l
        else (l, false)
      if pr.2 then pr.1
      else
        let l := pr.1
        if 0 < a ∧ ¬ lt (lget l (a - 1)) (lget l pivot) then
          let (l, mid) := partEqualGo lt a b pivot l
          pdqLoop lt fuel l mid b lim2 wasBalanced wasPartitioned
        else
          let (l, mid, alreadyPartitioned) := partitionGo lt a b pivot l
          let leftLen := mid - a
          let rightLen := b - mid
          let balanceThreshold := length / 8
          let wasBalanced2 := decide (min leftLen rightLen ≥ balanceThreshold)
          if leftLen < rightLen then
            let l := pdqLoop lt fuel l a mid lim2 true true
            pdqLoop lt fuel l (mid + 1) b lim2 wasBalanced2 alreadyPartitioned
          else
            let l := pdqLoop lt fuel l (mid + 1) b lim2 true true
            pdqLoop lt fuel l a mid lim2 wasBalanced2 alreadyPartitioned

/-- `sort.Slice`: `limit = bits.Len(uint(length))`, then `pdqsort_func`. -/
def sortSlice {α : Type} [Inhabited α] (lt : α → α → Bool) (l : List α) : List α :=
  pdqLoop lt (8 * l.length + 64) l 0 l.length (goBitsLen l.length) true true

/-! ## The six `SortProcsBy*` functions -/

/-- `SortProcsByAge`. -/
def SortProcsByAge (processes : List Process) : List Process :=
  sortSlice (fun x y => decide (x.Age < y.Age)) processes

/-- `SortProcsByCpu`. -/
def SortProcsByCpu (processes : List Process) : List Process :=
  sortSlice (fun x y => decide (x.CPUPercent < y.CPUPercent)) processes

/-- `SortProcsByMemory` (compares `float64(RSS)`). -/
def SortProcsByMemory (processes : List Process) : List Process :=
  sortSlice (fun x y => decide (f64ofNat x.MemoryInfo.RSS < f64ofNat y.MemoryInfo.RSS)) processes

/-- `SortProcsByUsername`. -/
def SortProcsByUsername (processes : List Process) : List Process :=
  sortSlice (fun x y => decide (x.Username < y.Username)) processes

/-- `SortProcsByPid`. -/
def SortProcsByPid (processes : List Process) : List Process :=
  sortSlice (fun x y => decide (x.PID < y.PID)) processes

/-- `SortProcsByNumThreads`. -/
def SortProcsByNumThreads (processes : List Process) : List Process :=
  sortSlice (fun x y => decide (x.NumThreads < y.NumThreads)) processes

/-! ## Sortedness and stability of the insertion-sort regime

For lists of at most `maxInsertion = 12` elements `sort.Slice` runs pure
insertion sort; these lemmas establish that it sorts ascending by the
comparator key and preserves the relative order of equal-keyed elements. -/

/-- Ascending by key. -/
def keySorted {α κ : Type} [LinearOrder κ] (key : α → κ) (l : List α) : Prop :=
  l.Chain' (fun x y => key x ≤ key y)

/-- The subsequence of elements with one fixed key value. -/
def keyFilter {α κ : Type} [LinearOrder κ] (key : α → κ) (k : κ) (l : List α) : List α :=
  l.filter (fun x => decide (key x = k))

/-- Descending by key (the reversed sorted prefix of the insertion loop). -/
def revKeySorted {α κ : Type} [LinearOrder κ] (key : α → κ) (l : List α) : Prop :=
  l.Chain' (fun x y => key y ≤ key x)

theorem insRev_revSorted {α κ : Type} [LinearOrder κ] (key : α → κ) (x : α) :
    ∀ r : List α, revKeySorted key r →
      revKeySorted key (insRev (fun a b => decide (key a < key b)) x r) := by
  intro r
  induction r with
  | nil => intro h; simp [insRev, revKeySorted]
  | cons y r ih =>
    intro h
    unfold revKeySorted at h
    rw [List.chain'_cons'] at h
    by_cases hlt : key x < key y
    · have hstep : insRev (fun a b => decide (key a < key b)) x (y :: r)
          = y :: insRev (fun a b => decide (key a < key b)) x r := by
        simp [insRev, hlt]
      rw [hstep]
      unfold revKeySorted
      rw [List.chain'_cons']
      refine ⟨?_, ih h.2⟩
      intro z hz
      cases r with
      | nil =>
        simp [insRev] at hz
        subst hz
        exact le_of_lt hlt
      | cons w r2 =>
        by_cases hlt2 : key x < key w
        · have : insRev (fun a b => decide (key a < key b)) x (w :: r2)
              = w :: insRev (fun a b => decide (key a < key b)) x r2 := by
            simp [insRev, hlt2]
          rw [this] at hz
          simp at hz
          subst hz
          exact h.1 w (by simp)
        · have : insRev (fun a b => decide (key a < key b)) x (w :: r2)
              = x :: w :: r2 := by
            simp [insRev, hlt2]
          rw [this] at hz
          simp at hz
          subst hz
          exact le_of_lt hlt
    · have hstep : insRev (fun a b => decide (key a < key b)) x (y :: r)
          = x :: y :: r := by
        simp [insRev, hlt]
      rw [hstep]
      unfold revKeySorted
      rw [List.chain'_cons]
      exact ⟨le_of_not_lt hlt, List.chain'_cons'.2 h⟩

theorem keyFilter_append {α κ : Type} [LinearOrder κ] (key : α → κ) (k : κ)
    (l1 l2 : List α) :
    keyFilter key k (l1 ++ l2) = keyFilter key k l1 ++ keyFilter key k l2 := by
  simp [keyFilter, List.filter_append]

theorem insRev_filter {α κ : Type} [LinearOrder κ] (key : α → κ) (k : κ) (x : α) :
    ∀ r : List α,
      keyFilter key k ((insRev (fun a b => decide (key a < key b)) x r).reverse)
        = keyFilter key k (r.reverse ++ [x]) := by
  intro r
  induction r with
  | nil => simp [insRev]
  | cons y r ih =>
    by_cases hlt : key x < key y
    · have hstep : insRev (fun a b => decide (key a < key b)) x (y :: r)
          = y :: insRev (fun a b => decide (key a < key b)) x r := by
        simp [insRev, hlt]
      rw [hstep]
      have hy : (y :: insRev (fun a b => decide (key a < key b)) x r).reverse
          = (insRev (fun a b => decide (key a < key b)) x r).reverse ++ [y] := by
        simp
      rw [hy, keyFilter_append, ih]
      have hr : (y :: r).reverse ++ [x] = r.reverse ++ ([y] ++ [x]) := by
        simp
      rw [hr, keyFilter_append, keyFilter_append, keyFilter_append]
      have hcomm : keyFilter key k [x] ++ keyFilter key k [y]
          = keyFilter key k [y] ++ keyFilter key k [x] := by
        by_cases hx : key x = k
        · by_cases hyk : key y = k
          · exact absurd (hx.trans hyk.symm) (ne_of_lt hlt)
          · simp [keyFilter, hx, hyk]
        · simp [keyFilter, hx]
      rw [List.append_assoc, hcomm]
    · have hstep : insRev (fun a b => decide (key a < key b)) x (y :: r)
          = x :: y :: r := by
        simp [insRev, hlt]
      rw [hstep]
      have : (x :: y :: r).reverse = (y :: r).reverse ++ [x] := by simp
      rw [this]

theorem isortRevAux_props {α κ : Type} [LinearOrder κ] (key : α → κ) :
    ∀ (xs acc : List α), revKeySorted key acc →
      revKeySorted key (isortRevAux (fun a b => decide (key a < key b)) acc xs) ∧
      ∀ k, keyFilter key k ((isortRevAux (fun a b => decide (key a < key b)) acc xs).reverse)
        = keyFilter key k (acc.reverse ++ xs) := by
  intro xs
  induction xs with
  | nil =>
    intro acc hacc
    exact ⟨hacc, fun k => by simp [isortRevAux]⟩
  | cons x xs ih =>
    intro acc hacc
    have hstep : isortRevAux (fun a b => decide (key a < key b)) acc (x :: xs)
        = isortRevAux (fun a b => decide (key a < key b))
            (insRev (fun a b => decide (key a < key b)) x acc) xs := rfl
    rw [hstep]
    obtain ⟨hs, hf⟩ := ih (insRev (fun a b => decide (key a < key b)) x acc)
      (insRev_revSorted key x acc hacc)
    refine ⟨hs, fun k => ?_⟩
    rw [hf k, keyFilter_append, insRev_filter, keyFilter_append]
    have hx : keyFilter key k (x :: xs) = keyFilter key k [x] ++ keyFilter key k xs := by
      have hcons : (x :: xs) = [x] ++ xs := rfl
      rw [hcons, keyFilter_append]
    rw [keyFilter_append, hx, List.append_assoc]

/-- Insertion sort orders ascending by key and preserves the relative order
of elements with any fixed key value. -/
theorem isortF_sorted_stable {α κ : Type} [LinearOrder κ] (key : α → κ)
    (l : List α) :
    keySorted key (isortF (fun a b => decide (key a < key b)) l) ∧
    ∀ k, keyFilter key k (isortF (fun a b => decide (key a < key b)) l)
        = keyFilter key k l := by
  obtain ⟨hs, hf⟩ := isortRevAux_props key l [] (by simp [revKeySorted])
  constructor
  · unfold isortF keySorted
    rw [List.chain'_reverse]
    exact hs
  · intro k
    have := hf k
    simpa [isortF] using this

theorem isortRange_whole {α : Type} (lt : α → α → Bool) (l : List α) :
    isortRange lt 0 l.length l = isortF lt l := by
  simp [isortRange]

/-- For at most `maxInsertion = 12` elements, `sort.Slice` is exactly one
insertion sort of the whole slice. -/
theorem sortSlice_short {α : Type} [Inhabited α] (lt : α → α → Bool)
    (l : List α) (h : l.length ≤ 12) : sortSlice lt l = isortF lt l := by
  unfold sortSlice
  have hfuel : 8 * l.length + 64 = (8 * l.length + 63) + 1 := rfl
  rw [hfuel, pdqLoop]
  dsimp only
  rw [Nat.sub_zero, if_pos h]
  exact isortRange_whole lt l

/-- `decide` does not depend on which `Decidable` instance is used. -/
theorem decide_irrel {p : Prop} (d1 d2 : Decidable p) :
    @decide p d1 = @decide p d2 := by
  cases d1 with
  | isTrue h1 =>
    cases d2 with
    | isTrue h2 => rfl
    | isFalse h2 => exact absurd h1 h2
  | isFalse h1 =>
    cases d2 with
    | isTrue h2 => exact absurd h2 h1
    | isFalse h2 => rfl

/-- `isortF_sorted_stable` for any comparator pointwise equal to the key
comparison (the sort functions elaborate their `decide` with the ambient
instances). -/
theorem isortF_sorted_stable2 {α κ : Type} [LinearOrder κ] (key : α → κ)
    (lt : α → α → Bool) (hlt : ∀ a b, lt a b = decide (key a < key b))
    (l : List α) :
    keySorted key (isortF lt l) ∧
    ∀ k, keyFilter key k (isortF lt l) = keyFilter key k l := by
  have hfun : lt = fun a b => decide (key a < key b) := funext fun a => funext fun b => hlt a b
  subst hfun
  exact isortF_sorted_stable key l

/-- A process distinguished by its PID key and a username tag. -/
def c5p (pid : Int) (tag : String) : Process :=
  { PID := pid, PPID := 0, PGID := 0, Command := "", Args := [], Signature := "",
    Username := tag, Age := 0, CPUPercent := 0, CreateTime := 0,
    MemoryInfo := { RSS := 0 }, MemoryPercent := 0, NumThreads := 0,
    UIDs := [], GIDs := [], Groups := [] }

/-- Thirteen processes (one above the insertion-sort threshold) with two
equal PID-5 entries, tagged `A` (earlier) and `B` (later). -/
def c5cex : List Process :=
  [c5p 7 "x0", c5p 1 "x1", c5p 2 "x2", c5p 5 "A", c5p 8 "x4", c5p 3 "x5",
   c5p 5 "B", c5p 9 "x7", c5p 10 "x8", c5p 9 "x9", c5p 4 "x10",
   c5p 11 "x11", c5p 12 "x12"]

/-- A three-process list below the insertion threshold. -/
def c5small : List Process := [c5p 3 "a", c5p 1 "b", c5p 3 "c"]

/-- Claim C5 counterexample: `SortProcsByPid` (via `sort.Slice`, i.e.
pdqsort) is not stable.  On `c5cex` the two processes with equal key
`PID = 5` appear as `A` then `B` in the input but as `B` then `A` in the
output, so equal-keyed processes do not keep their relative input order. -/
theorem sortProcsByPid_unstable_cex :
    (keyFilter (fun p : Process => p.PID) 5 (SortProcsByPid c5cex)).map
        (fun p => p.Username) = ["B", "A"]
    ∧ (keyFilter (fun p : Process => p.PID) 5 c5cex).map
        (fun p => p.Username) = ["A", "B"]
    ∧ (["B", "A"] : List String) ≠ ["A", "B"] := by
  decide

/-- Claim C5 (amended): each sort operation reorders the process list
ascending by its key, but the sort (`sort.Slice`, pdqsort) is not stable in
general; only for lists of at most 12 processes — where the library runs
pure insertion sort — do processes with equal keys keep their relative input
order.  This theorem is the positive half: for each of the six sorts, on
lists of at most 12 processes the output is ascending by the sort's
comparator key and the subsequence at every fixed key value is preserved. -/
theorem sortProcs_ascending_stable_small (l : List Process) (h : l.length ≤ 12) :
    (keySorted (fun p : Process => p.Age) (SortProcsByAge l)
      ∧ ∀ k, keyFilter (fun p : Process => p.Age) k (SortProcsByAge l)
          = keyFilter (fun p : Process => p.Age) k l) ∧
    (keySorted (fun p : Process => p.CPUPercent) (SortProcsByCpu l)
      ∧ ∀ k, keyFilter (fun p : Process => p.CPUPercent) k (SortProcsByCpu l)
          = keyFilter (fun p : Process => p.CPUPercent) k l) ∧
    (keySorted (fun p : Process => f64ofNat p.MemoryInfo.RSS) (SortProcsByMemory l)
      ∧ ∀ k, keyFilter (fun p : Process => f64ofNat p.MemoryInfo.RSS) k (SortProcsByMemory l)
          = keyFilter (fun p : Process => f64ofNat p.MemoryInfo.RSS) k l) ∧
    (keySorted (fun p : Process => p.Username) (SortProcsByUsername l)
      ∧ ∀ k, keyFilter (fun p : Process => p.Username) k (SortProcsByUsername l)
          = keyFilter (fun p : Process => p.Username) k l) ∧
    (keySorted (fun p : Process => p.PID) (SortProcsByPid l)
      ∧ ∀ k, keyFilter (fun p : Process => p.PID) k (SortProcsByPid l)
          = keyFilter (fun p : Process => p.PID) k l) ∧
    (keySorted (fun p : Process => p.NumThreads) (SortProcsByNumThreads l)
      ∧ ∀ k, keyFilter (fun p : Process => p.NumThreads) k (SortProcsByNumThreads l)
          = keyFilter (fun p : Process => p.NumThreads) k l) := by
  refine ⟨?_, ?_, ?_, ?_, ?_, ?_⟩
  · unfold SortProcsByAge
    rw [sortSlice_short _ _ h]
    exact isortF_sorted_stable (fun p : Process => p.Age) l
  · unfold SortProcsByCpu
    rw [sortSlice_short _ _ h]
    exact isortF_sorted_stable (fun p : Process => p.CPUPercent) l
  · unfold SortProcsByMemory
    rw [sortSlice_short _ _ h]
    exact isortF_sorted_stable (fun p : Process => f64ofNat p.MemoryInfo.RSS) l
  · unfold SortProcsByUsername
    rw [sortSlice_short _ _ h]
    exact isortF_sorted_stable2 (fun p : Process => p.Username) _
      (fun a b => decide_irrel _ _) l
  · unfold SortProcsByPid
    rw [sortSlice_short _ _ h]
    exact isortF_sorted_stable (fun p : Process => p.PID) l
  · unfold SortProcsByNumThreads
    rw [sortSlice_short _ _ h]
    exact isortF_sorted_stable (fun p : Process => p.NumThreads) l

/-- Claim C5 witness: the amended theorem applied to a three-process list. -/
theorem sortProcs_ascending_stable_small_witness :
    (keySorted (fun p : Process => p.Age) (SortProcsByAge c5small)
      ∧ ∀ k, keyFilter (fun p : Process => p.Age) k (SortProcsByAge c5small)
          = keyFilter (fun p : Process => p.Age) k c5small) ∧
    (keySorted (fun p : Process => p.CPUPercent) (SortProcsByCpu c5small)
      ∧ ∀ k, keyFilter (fun p : Process => p.CPUPercent) k (SortProcsByCpu c5small)
          = keyFilter (fun p : Process => p.CPUPercent) k c5small) ∧
    (keySorted (fun p : Process => f64ofNat p.MemoryInfo.RSS) (SortProcsByMemory c5small)
      ∧ ∀ k, keyFilter (fun p : Process => f64ofNat p.MemoryInfo.RSS) k (SortProcsByMemory c5small)
          = keyFilter (fun p : Process => f64ofNat p.MemoryInfo.RSS) k c5small) ∧
    (keySorted (fun p : Process => p.Username) (SortProcsByUsername c5small)
      ∧ ∀ k, keyFilter (fun p : Process => p.Username) k (SortProcsByUsername c5small)
          = keyFilter (fun p : Process => p.Username) k c5small) ∧
    (keySorted (fun p : Process => p.PID) (SortProcsByPid c5small)
      ∧ ∀ k, keyFilter (fun p : Process => p.PID) k (SortProcsByPid c5small)
          = keyFilter (fun p : Process => p.PID) k c5small) ∧
    (keySorted (fun p : Process => p.NumThreads) (SortProcsByNumThreads c5small)
      ∧ ∀ k, keyFilter (fun p : Process => p.NumThreads) k (SortProcsByNumThreads c5small)
          = keyFilter (fun p : Process => p.NumThreads) k c5small) :=
  sortProcs_ascending_stable_small c5small (by decide)

/-! ## The run command (`cmd/root.go`)

`pstreeRunCmd` is embedded from `cmd/root.go`: the eight flag-conflict rules,
the version early exit, the username-existence filter (whose helpers
`util.UserExists` / `util.DeleteSliceElement` live outside the covered
sources; its net effect on the username list is therefore abstracted as a
function parameter `filterUsers` — it touches nothing but the username
list), the `--show-all` expansion, the order-by block, the flag fix-ups and
the `DisplayOptions` literal.  `GetProcesses` (the collector snapshot) is
out of scope; its output is the `processes` parameter. -/

/-- `validAttributes` from `cmd/root.go`. -/
def validAttributes : List String := ["age", "cpu", "mem"]

/-- `validColorSchemes` from `cmd/root.go`. -/
def validColorSchemes : List String := ["darwin", "linux", "powershell", "windows10", "xterm"]

/-- `validOrderBy` from `cmd/root.go`. -/
def validOrderBy : List String := ["age", "cpu", "mem", "pid", "threads", "user"]

/-- `GetProcessByPid` (`pkg/pstree/pstree.go`): scan the slice in order and
return the first process whose PID matches, or the formatted error. -/
def GetProcessByPid (processes : List Process) (pid : Int) : Except String Process :=
  match processes.find? (fun p => p.PID == pid) with
  | some p => Except.ok p
  | none => Except.error ("the process with the PID " ++ toString pid ++ " was not found")

/-- The command-line flag state of `cmd/root.go` at entry to `pstreeRunCmd`.
Defaults are the Go zero values / cobra defaults.  `userChanged` and
`levelChanged` model the two `cmd.Flags().Changed(...)` queries. -/
structure Flags where
  age : Bool := false
  arguments : Bool := false
  color : Bool := false
  colorAttr : String := ""
  colorScheme : String := ""
  compactNot : Bool := false
  contains : String := ""
  cpu : Bool := false
  excludeRoot : Bool := false
  ibm850 : Bool := false
  level : Int := 0
  memory : Bool := false
  orderBy : String := ""
  pid : Int := 1
  rainbow : Bool := false
  showAll : Bool := false
  showOwner : Bool := false
  showPGIDs : Bool := false
  showPGLs : Bool := false
  showPIDs : Bool := false
  showPPIDs : Bool := false
  showUIDTransitions : Bool := false
  showUserTransitions : Bool := false
  threads : Bool := false
  usernames : List String := []
  utf8 : Bool := false
  version : Bool := false
  vt100 : Bool := false
  wide : Bool := false
  userChanged : Bool := false
  levelChanged : Bool := false
  deriving Repr, DecidableEq

/-- The sort the order-by switch runs for each key (identity for a key
outside the switch, mirroring the `default` case). -/
def sortForKey (key : String) (processes : List Process) : List Process :=
  match key with
  | "age" => SortProcsByAge processes
  | "cpu" => SortProcsByCpu processes
  | "mem" => SortProcsByMemory processes
  | "pid" => SortProcsByPid processes
  | "threads" => SortProcsByNumThreads processes
  | "user" => SortProcsByUsername processes
  | _ => processes

/-- The order-by block of `pstreeRunCmd` (`cmd/root.go` lines 252–291).
With an empty key the block is skipped; an unrecognized key returns the
formatted error; otherwise PID 1 is looked up (`panic(err)` on a missing
PID 1 is modelled as the error), `sorted` starts as `[proc1]`, the switch
sorts the slice in place and sets one display flag, and every process of
the (now sorted) slice other than PID 1 is appended.  In the `default`
case `sorted` starts as the unsorted slice itself. -/
def applyOrderBy (fl : Flags) (processes : List Process) :
    Except String (Flags × List Process) :=
  if fl.orderBy = "" then Except.ok (fl, processes)
  else if fl.orderBy ∉ validOrderBy then
    Except.error "valid options for --order-by are: age, cpu, mem, pid, threads, user"
  else
    match GetProcessByPid processes 1 with
    | Except.error e => Except.error e
    | Except.ok proc =>
      match fl.orderBy with
      | "age" => Except.ok ({ fl with age := true },
          proc :: (SortProcsByAge processes).filter (fun p => p.PID != 1))
      | "cpu" => Except.ok ({ fl with cpu := true },
          proc :: (SortProcsByCpu processes).filter (fun p => p.PID != 1))
      | "mem" => Except.ok ({ fl with memory := true },
          proc :: (SortProcsByMemory processes).filter (fun p => p.PID != 1))
      | "pid" => Except.ok ({ fl with showPIDs := true },
          proc :: (SortProcsByPid processes).filter (fun p => p.PID != 1))
      | "threads" => Except.ok ({ fl with threads := true },
          proc :: (SortProcsByNumThreads processes).filter (fun p => p.PID != 1))
      | "user" => Except.ok ({ fl with showOwner := true },
          proc :: (SortProcsByUsername processes).filter (fun p => p.PID != 1))
      | _ => Except.ok (fl, processes ++ processes.filter (fun p => p.PID != 1))

/-- A successful `GetProcessByPid` lookup returns a process with the
requested PID. -/
theorem getProcessByPid_pid (processes : List Process) (pid : Int) (p : Process)
    (h : GetProcessByPid processes pid = Except.ok p) : p.PID = pid := by
  unfold GetProcessByPid at h
  cases hf : processes.find? (fun q => q.PID == pid) with
  | none => rw [hf] at h; cases h
  | some q =>
    rw [hf] at h
    cases h
    have := List.find?_some hf
    simpa using this

/-- Claim C6: whenever a sort key is requested (a non-empty `--order-by`
value among the recognized keys) and the snapshot contains a PID-1 process,
the order-by block succeeds and places that PID-1 process first in the
resulting sequence regardless of which of the six keys was chosen; all
other processes follow in the order produced by the key's sort. -/
theorem orderBy_pid1_first (fl : Flags) (processes : List Process)
    (hkey : fl.orderBy ∈ validOrderBy) (p1 : Process)
    (hp1 : GetProcessByPid processes 1 = Except.ok p1) :
    p1.PID = 1 ∧ ∃ fl2, applyOrderBy fl processes =
      Except.ok (fl2, p1 :: (sortForKey fl.orderBy processes).filter (fun p => p.PID != 1)) := by
  refine ⟨getProcessByPid_pid processes 1 p1 hp1, ?_⟩
  have hne : fl.orderBy ≠ "" := by
    intro hemp
    rw [hemp] at hkey
    exact absurd hkey (by decide)
  have hmem := hkey
  simp only [validOrderBy, List.mem_cons, List.not_mem_nil, or_false] at hkey
  rcases hkey with h|h|h|h|h|h <;>
    exact ⟨_, by
      unfold applyOrderBy
      rw [h, if_neg (h ▸ hne), if_neg (not_not_intro (h ▸ hmem)), hp1]
      rfl⟩

/-- Three processes with PID 1 present but not first. -/
def c6procs : List Process :=
  [sampleProc 3 1 "c" "u" 0, sampleProc 1 0 "init" "root" 0, sampleProc 2 1 "b" "u" 0]

/-- Claim C6 witness: the theorem applied to `c6procs` and the `pid` key. -/
theorem orderBy_pid1_first_witness :
    (("pid" : String) ∈ validOrderBy) ∧
    GetProcessByPid c6procs 1 = Except.ok (sampleProc 1 0 "init" "root" 0) ∧
    ((sampleProc 1 0 "init" "root" 0).PID = 1 ∧ ∃ fl2,
      applyOrderBy { orderBy := "pid" } c6procs =
        Except.ok (fl2, sampleProc 1 0 "init" "root" 0 ::
          (sortForKey "pid" c6procs).filter (fun p => p.PID != 1))) :=
  ⟨by decide, rfl,
   orderBy_pid1_first { orderBy := "pid" } c6procs (by decide)
     (sampleProc 1 0 "init" "root" 0) rfl⟩

/-- Modelled from the spec: `util.BtoI` (package `util`, outside the covered
sources) is the 0/1 indicator of a boolean flag, used by `pstreeRunCmd` to
count how many mutually exclusive options were supplied. -/
def BtoI (b : Bool) : Int := if b then 1 else 0

/-- Modelled from the spec: `util.StoI` (package `util`, outside the covered
sources) is the 0/1 indicator of a string option being non-empty, used by
`pstreeRunCmd` to count how many mutually exclusive options were supplied. -/
def StoI (s : String) : Int := if s = "" then 0 else 1

/-- The `--show-all` expansion of `pstreeRunCmd` (`cmd/root.go` lines
220–230). -/
def applyShowAll (fl : Flags) : Flags :=
  if fl.showAll then
    { fl with age := true, arguments := true, cpu := true, memory := true,
              showOwner := true, showPGLs := true, showPIDs := true,
              showPPIDs := true, threads := true }
  else fl

/-- `cmd/root.go` lines 293–295: a named color scheme switches colorizing
on. -/
def setColorFromScheme (fl : Flags) : Flags :=
  if fl.colorScheme ≠ "" then { fl with color := true } else fl

/-- `cmd/root.go` lines 297–299: an unset level means unlimited depth 999. -/
def setDefaultLevel (fl : Flags) : Flags :=
  if fl.level = 0 then { fl with level := 999 } else fl

/-- `cmd/root.go` lines 301–304: a color attribute or a contains filter
forces compact mode off. -/
def setCompactNot (fl : Flags) : Flags :=
  if fl.colorAttr ≠ "" ∨ fl.contains ≠ "" then { fl with compactNot := true } else fl

/-- The three flag fix-ups between the order-by block and the
`DisplayOptions` literal, in source order. -/
def finalizeFlags (fl : Flags) : Flags :=
  setCompactNot (setDefaultLevel (setColorFromScheme fl))

/-- The `DisplayOptions` literal of `pstreeRunCmd` (`cmd/root.go` lines
306–338).  The ambient values (installed memory, screen width, color
support) are parameters. -/
def mkDisplayOptions (fl : Flags) (installedMemory : Nat)
    (screenWidth colorCount : Int) (colorSupport : Bool) : DisplayOptions :=
  { ColorAttr := fl.colorAttr
    ColorCount := colorCount
    ColorizeOutput := fl.color
    ColorScheme := fl.colorScheme
    ColorSupport := colorSupport
    CompactMode := !fl.compactNot
    Contains := fl.contains
    ExcludeRoot := fl.excludeRoot
    IBM850Graphics := fl.ibm850
    InstalledMemory := installedMemory
    MaxDepth := fl.level
    OrderBy := fl.orderBy
    RainbowOutput := fl.rainbow
    RootPID := fl.pid
    ScreenWidth := screenWidth
    ShowArguments := fl.arguments
    ShowCpuPercent := fl.cpu
    ShowMemoryUsage := fl.memory
    ShowNumThreads := fl.threads
    ShowOwner := fl.showOwner
    ShowPGIDs := fl.showPGIDs
    ShowPGLs := fl.showPGLs
    ShowPIDs := fl.showPIDs
    ShowPPIDs := fl.showPPIDs
    ShowProcessAge := fl.age
    ShowUIDTransitions := fl.showUIDTransitions
    ShowUserTransitions := fl.showUserTransitions
    Usernames := fl.usernames
    UTF8Graphics := fl.utf8
    VT100Graphics := fl.vt100
    WideDisplay := fl.wide }

/-- Outcome of one `pstreeRunCmd` invocation: an error return, the
`--version` early `os.Exit(0)`, or reaching tree construction and rendering
with the final display options and process sequence. -/
inductive RunOutcome where
  | failed : String → RunOutcome
  | versionExit : RunOutcome
  | rendered : DisplayOptions → List Process → RunOutcome
  deriving Repr, DecidableEq

/-- `RunOutcome.failed` discriminator. -/
def isFailed : RunOutcome → Bool
  | RunOutcome.failed _ => true
  | _ => false

/-- `RunOutcome.rendered` discriminator. -/
def isRendered : RunOutcome → Bool
  | RunOutcome.rendered _ _ => true
  | _ => false

/-- `pstreeRunCmd` (`cmd/root.go` lines 131–345): the eight flag-conflict
rules in source order, the `--version` exit, the username-existence filter
(abstracted as `filterUsers`, which only touches the username list), the
`--show-all` expansion, the order-by block over the collector snapshot
`processes`, the flag fix-ups, and the final `DisplayOptions`. -/
def pstreeRunCmd (filterUsers : List String → List String)
    (installedMemory : Nat) (screenWidth colorCount : Int) (colorSupport : Bool)
    (fl : Flags) (processes : List Process) : RunOutcome :=
  if fl.userChanged ∧ fl.excludeRoot then
    RunOutcome.failed "--user and --exclude-root cannot be used together"
  else if 1 < BtoI fl.color + BtoI fl.rainbow + StoI fl.colorAttr then
    RunOutcome.failed "only one of --color-attr, --color, and --rainbow can be used"
  else if 1 < BtoI fl.ibm850 + BtoI fl.utf8 + BtoI fl.vt100 then
    RunOutcome.failed "only one of --ibm-850, --utf-8, and --vt-100 can be used"
  else if fl.colorAttr ≠ "" ∧ fl.colorAttr ∉ validAttributes then
    RunOutcome.failed "valid options for --color-attr are: age, cpu, mem"
  else if 1 < BtoI fl.showUIDTransitions + BtoI fl.showUserTransitions then
    RunOutcome.failed "only one of --uid-transitions and --user-transitions can be used"
  else if fl.levelChanged ∧ fl.level < 1 then
    RunOutcome.failed "--level cannot be set to less than 1"
  else if fl.colorScheme ≠ "" ∧ fl.colorScheme ∉ validColorSchemes then
    RunOutcome.failed "valid options for --color-scheme are: darwin, linux, powershell, windows10, xterm"
  else if fl.colorScheme ≠ "" ∧ (fl.colorAttr ≠ "" ∨ fl.rainbow) then
    RunOutcome.failed "--color-scheme cannot be used with --color-attr or --rainbow"
  else if fl.version then RunOutcome.versionExit
  else
    match applyOrderBy (applyShowAll { fl with usernames := filterUsers fl.usernames }) processes with
    | Except.error e => RunOutcome.failed e
    | Except.ok (fl3, procs2) =>
      RunOutcome.rendered
        (mkDisplayOptions (finalizeFlags fl3) installedMemory screenWidth colorCount colorSupport)
        procs2

/-- The order-by block never changes the color attribute, the contains
filter, or the compact-not flag. -/
theorem applyOrderBy_preserves (fl : Flags) (processes : List Process)
    (fl2 : Flags) (procs2 : List Process)
    (h : applyOrderBy fl processes = Except.ok (fl2, procs2)) :
    fl2.colorAttr = fl.colorAttr ∧ fl2.contains = fl.contains
      ∧ fl2.compactNot = fl.compactNot := by
  unfold applyOrderBy at h
  split at h
  · simp only [Except.ok.injEq, Prod.mk.injEq] at h
    obtain ⟨h1, -⟩ := h
    subst h1
    exact ⟨rfl, rfl, rfl⟩
  · split at h
    · exact Except.noConfusion h
    · split at h
      · exact Except.noConfusion h
      · split at h <;>
          (simp only [Except.ok.injEq, Prod.mk.injEq] at h
           obtain ⟨h1, -⟩ := h
           subst h1
           exact ⟨rfl, rfl, rfl⟩)

/-- `--show-all` never changes the color attribute or the contains filter. -/
theorem applyShowAll_attrs (fl : Flags) :
    (applyShowAll fl).colorAttr = fl.colorAttr
      ∧ (applyShowAll fl).contains = fl.contains := by
  unfold applyShowAll
  split <;> exact ⟨rfl, rfl⟩

/-- `--show-all` never changes the order-by key. -/
theorem applyShowAll_orderBy (fl : Flags) :
    (applyShowAll fl).orderBy = fl.orderBy := by
  unfold applyShowAll
  split <;> rfl

/-- The color-scheme fix-up never changes the color attribute or the
contains filter. -/
theorem setColorFromScheme_attrs (fl : Flags) :
    (setColorFromScheme fl).colorAttr = fl.colorAttr
      ∧ (setColorFromScheme fl).contains = fl.contains := by
  unfold setColorFromScheme
  split <;> exact ⟨rfl, rfl⟩

/-- The level fix-up never changes the color attribute or the contains
filter. -/
theorem setDefaultLevel_attrs (fl : Flags) :
    (setDefaultLevel fl).colorAttr = fl.colorAttr
      ∧ (setDefaultLevel fl).contains = fl.contains := by
  unfold setDefaultLevel
  split <;> exact ⟨rfl, rfl⟩

/-- With a color attribute or a contains filter set, the flag fix-ups force
`compactNot`. -/
theorem finalizeFlags_compactNot (fl : Flags)
    (h : fl.colorAttr ≠ "" ∨ fl.contains ≠ "") :
    (finalizeFlags fl).compactNot = true := by
  have ha := setColorFromScheme_attrs fl
  have hb := setDefaultLevel_attrs (setColorFromScheme fl)
  unfold finalizeFlags setCompactNot
  rw [if_pos (by rw [hb.1, ha.1, hb.2, ha.2]; exact h)]

/-- Claim C7: whenever a color-by-attribute or a substring (contains)
filter is active, any run that reaches rendering carries display options
with compact mode disabled, even if compaction was requested (that is,
even when the user did not pass `--compact-not`). -/
theorem compactMode_disabled_by_attr_or_contains
    (filterUsers : List String → List String) (installedMemory : Nat)
    (screenWidth colorCount : Int) (colorSupport : Bool)
    (fl : Flags) (processes : List Process) (opts : DisplayOptions)
    (procs : List Process)
    (hattr : fl.colorAttr ≠ "" ∨ fl.contains ≠ "")
    (hrun : pstreeRunCmd filterUsers installedMemory screenWidth colorCount colorSupport fl processes
      = RunOutcome.rendered opts procs) :
    opts.CompactMode = false := by
  unfold pstreeRunCmd at hrun
  split at hrun
  · exact RunOutcome.noConfusion hrun
  split at hrun
  · exact RunOutcome.noConfusion hrun
  split at hrun
  · exact RunOutcome.noConfusion hrun
  split at hrun
  · exact RunOutcome.noConfusion hrun
  split at hrun
  · exact RunOutcome.noConfusion hrun
  split at hrun
  · exact RunOutcome.noConfusion hrun
  split at hrun
  · exact RunOutcome.noConfusion hrun
  split at hrun
  · exact RunOutcome.noConfusion hrun
  split at hrun
  · exact RunOutcome.noConfusion hrun
  split at hrun
  · exact RunOutcome.noConfusion hrun
  next fl3 procs2 heq =>
    injection hrun with h1 h2
    subst h1
    have hpres := applyOrderBy_preserves _ processes fl3 procs2 heq
    have ha := applyShowAll_attrs { fl with usernames := filterUsers fl.usernames }
    have hattr3 : fl3.colorAttr ≠ "" ∨ fl3.contains ≠ "" := by
      rcases hattr with h|h
      · exact Or.inl (by rw [hpres.1, ha.1]; exact h)
      · exact Or.inr (by rw [hpres.2.1, ha.2]; exact h)
    have hc := finalizeFlags_compactNot fl3 hattr3
    show (mkDisplayOptions (finalizeFlags fl3) installedMemory screenWidth colorCount colorSupport).CompactMode = false
    unfold mkDisplayOptions
    simp [hc]

/-- A flag state requesting a color attribute while leaving compaction on. -/
def c7flags : Flags := { colorAttr := "age" }

/-- Claim C7 witness: the theorem applied at `c7flags` over an empty
snapshot. -/
theorem compactMode_disabled_witness :
    (c7flags.colorAttr ≠ "" ∨ c7flags.contains ≠ "") ∧
    pstreeRunCmd (fun l => l) 0 80 0 false c7flags [] =
      RunOutcome.rendered (mkDisplayOptions (finalizeFlags c7flags) 0 80 0 false) [] ∧
    (mkDisplayOptions (finalizeFlags c7flags) 0 80 0 false).CompactMode = false :=
  ⟨Or.inl (by decide), rfl,
   compactMode_disabled_by_attr_or_contains (fun l => l) 0 80 0 false c7flags []
     (mkDisplayOptions (finalizeFlags c7flags) 0 80 0 false) [] (Or.inl (by decide)) rfl⟩

/-- An unrecognized, non-empty order-by key returns the formatted error. -/
theorem applyOrderBy_invalid (fl : Flags) (processes : List Process)
    (h1 : fl.orderBy ≠ "") (h2 : fl.orderBy ∉ validOrderBy) :
    applyOrderBy fl processes =
      Except.error "valid options for --order-by are: age, cpu, mem, pid, threads, user" := by
  unfold applyOrderBy
  rw [if_neg h1, if_pos h2]

/-- A flag state with `--version` and a bogus order-by key. -/
def c8flags : Flags := { version := true, orderBy := "bogus" }

/-- Claim C8 counterexample: with `--version` set, an unrecognized sort key
does NOT make the run command return an error — the version check exits
first (`os.Exit(0)`), before the order-by key is ever validated. -/
theorem run_version_skips_orderBy_check_cex :
    c8flags.orderBy ≠ "" ∧ c8flags.orderBy ∉ validOrderBy ∧
    pstreeRunCmd (fun l => l) 0 80 0 false c8flags [] = RunOutcome.versionExit ∧
    isFailed (pstreeRunCmd (fun l => l) 0 80 0 false c8flags []) = false :=
  ⟨by decide, by decide, rfl, rfl⟩

/-- Claim C8 (amended): a color conflict (color-by-attribute together with
colorize or rainbow), an invalid color attribute, an invalid color scheme,
a scheme combined with color-by-attribute or rainbow, or — provided
`--version` was not supplied — an unrecognized non-empty sort key, each
make the run command return an error, and no process tree is constructed
or rendered. -/
theorem run_config_errors
    (filterUsers : List String → List String) (installedMemory : Nat)
    (screenWidth colorCount : Int) (colorSupport : Bool)
    (fl : Flags) (processes : List Process)
    (h : 1 < BtoI fl.color + BtoI fl.rainbow + StoI fl.colorAttr
       ∨ (fl.colorAttr ≠ "" ∧ fl.colorAttr ∉ validAttributes)
       ∨ (fl.colorScheme ≠ "" ∧ fl.colorScheme ∉ validColorSchemes)
       ∨ (fl.colorScheme ≠ "" ∧ (fl.colorAttr ≠ "" ∨ fl.rainbow))
       ∨ (fl.version = false ∧ fl.orderBy ≠ "" ∧ fl.orderBy ∉ validOrderBy)) :
    isFailed (pstreeRunCmd filterUsers installedMemory screenWidth colorCount colorSupport fl processes) = true
    ∧ isRendered (pstreeRunCmd filterUsers installedMemory screenWidth colorCount colorSupport fl processes) = false := by
  unfold pstreeRunCmd
  split
  · exact ⟨rfl, rfl⟩
  rename_i hn1
  split
  · exact ⟨rfl, rfl⟩
  rename_i hn2
  split
  · exact ⟨rfl, rfl⟩
  rename_i hn3
  split
  · exact ⟨rfl, rfl⟩
  rename_i hn4
  split
  · exact ⟨rfl, rfl⟩
  rename_i hn5
  split
  · exact ⟨rfl, rfl⟩
  rename_i hn6
  split
  · exact ⟨rfl, rfl⟩
  rename_i hn7
  split
  · exact ⟨rfl, rfl⟩
  rename_i hn8
  split
  · rename_i hv
    rcases h with h|h|h|h|h
    · exact absurd h hn2
    · exact absurd h hn4
    · exact absurd h hn7
    · exact absurd h hn8
    · rw [h.1] at hv
      cases hv
  rename_i hv
  rcases h with h|h|h|h|h
  · exact absurd h hn2
  · exact absurd h hn4
  · exact absurd h hn7
  · exact absurd h hn8
  · have hx : (applyShowAll { fl with usernames := filterUsers fl.usernames }).orderBy = fl.orderBy :=
      applyShowAll_orderBy _
    rw [applyOrderBy_invalid _ processes (by rw [hx]; exact h.2.1) (by rw [hx]; exact h.2.2)]
    exact ⟨rfl, rfl⟩

/-- A flag state with both `--color` and `--rainbow`. -/
def c8wflags : Flags := { color := true, rainbow := true }

/-- Claim C8 witness: the amended theorem applied at a color/rainbow
conflict. -/
theorem run_config_errors_witness :
    (1 < BtoI c8wflags.color + BtoI c8wflags.rainbow + StoI c8wflags.colorAttr) ∧
    (isFailed (pstreeRunCmd (fun l => l) 0 80 0 false c8wflags []) = true
     ∧ isRendered (pstreeRunCmd (fun l => l) 0 80 0 false c8wflags []) = false) :=
  ⟨by decide, run_config_errors (fun l => l) 0 80 0 false c8wflags [] (Or.inl (by decide))⟩

/-! ## `GenerateProcess` (`pkg/pstree/pstree.go` lines 131–528)

Each attribute is fetched through its own collector channel; a fetch either
yields a value or fails.  The fetch outcomes are modelled as `Option`
fields (`none` = the fetch returned an error), and `GenerateProcess` builds
the `Process` record from them exactly as the Go code does: required
fields are always fetched, gated fields only when the display options ask
for them (otherwise they keep their Go zero value), and every failure is
replaced by the field's sentinel inline, never propagated.
`util.GetUnixTimestamp()` (outside the covered sources) is the `now`
parameter; `util.RoundFloat(·, 2)` is `roundFloat2` above. -/

/-- Outcomes of the per-attribute collector fetches (`none` = error). -/
structure FetchResults where
  args : Option (List String) := none
  command : Option String := none
  ppid : Option Int := none
  cpuPercent : Option Rat := none
  createTime : Option Int := none
  memoryInfo : Option MemInfo := none
  memoryPercent : Option Rat := none
  numThreads : Option Int := none
  pgid : Option Int := none
  username : Option String := none
  uids : Option (List Nat) := none
  gids : Option (List Nat) := none
  groups : Option (List Nat) := none
  deriving Repr, DecidableEq

/-- Gate for the cpu-percent fetch (`pstree.go` line 249). -/
def cpuGate (o : DisplayOptions) : Bool :=
  o.ShowCpuPercent || o.OrderBy == "cpu" || o.ColorAttr == "cpu"

/-- Gate for the create-time fetch (`pstree.go` line 270). -/
def ageGate (o : DisplayOptions) : Bool :=
  o.ShowProcessAge || o.OrderBy == "age" || o.ColorAttr == "age"

/-- Gate for the memory fetches (`pstree.go` line 329). -/
def memGate (o : DisplayOptions) : Bool :=
  o.ShowMemoryUsage || o.OrderBy == "mem" || o.ColorAttr == "mem"

/-- Gate for the thread-count fetch (`pstree.go` line 377). -/
def thrGate (o : DisplayOptions) : Bool :=
  o.ShowNumThreads || o.OrderBy == "threads"

/-- Gate for the pgid fetch (`pstree.go` line 408). -/
def pgidGate (o : DisplayOptions) : Bool :=
  o.ShowPGIDs || o.ShowPGLs

/-- Gate for the username fetch (`pstree.go` line 459). -/
def userGate (o : DisplayOptions) : Bool :=
  o.ShowOwner || o.ShowUserTransitions || o.OrderBy == "user"

/-- Gate for the uids fetch (`pstree.go` line 470). -/
def uidsGate (o : DisplayOptions) : Bool :=
  o.ShowUIDTransitions || o.ShowUserTransitions

/-- The argument trimming of `pstree.go` lines 481–489: if the first
argument repeats the command it is dropped. -/
def trimArgs (args : List String) (command : String) : List String :=
  match args with
  | [] => []
  | a :: rest => if a = command then rest else a :: rest

/-- `GenerateProcess`: build the `Process` record from the fetch outcomes.
Failed fetches degrade to their sentinels inline; ungated fields keep the
Go zero value of their local variable. -/
def GenerateProcess (now : Int) (o : DisplayOptions) (pid : Int)
    (f : FetchResults) : Process :=
  { PID := pid
    PPID := f.ppid.getD (-1)
    PGID := toInt32 (if pgidGate o then f.pgid.getD (-1) else 0)
    Command := f.command.getD "?"
    Args := trimArgs (f.args.getD []) (f.command.getD "?")
    Signature := ""
    Username := if userGate o then f.username.getD "?" else ""
    Age := now - (if ageGate o then f.createTime.getD (-1) else 0)
    CPUPercent := roundFloat2 (if cpuGate o then f.cpuPercent.getD (-1) else 0)
    CreateTime := if ageGate o then f.createTime.getD (-1) else 0
    MemoryInfo := if memGate o then f.memoryInfo.getD { RSS := 0 } else { RSS := 0 }
    MemoryPercent := if memGate o then f.memoryPercent.getD (-1) else 0
    NumThreads := if thrGate o then f.numThreads.getD (-1) else 0
    UIDs := if uidsGate o then f.uids.getD [] else []
    GIDs := f.gids.getD []
    Groups := f.groups.getD [] }

/-- `util.RoundFloat(-1, 2)` is `-1`. -/
theorem roundFloat2_neg_one : roundFloat2 (-1 : Rat) = -1 := by
  norm_num [roundFloat2, goRound]

/-- Claim C9: in `GenerateProcess` the failure of any single attribute
fetch never aborts construction of the `Process` record — each field is
computed from its own fetch alone, a failed fetch degrading to its
documented sentinel (command `?`, ppid −1, cpuPercent −1, createTime −1,
numThreads −1, pgid −1, username `?`, empty args/uids/gids) while a
successful fetch populates the field with its own value, regardless of the
other fetches' outcomes.  Gated fields are stated under their gate. -/
theorem generateProcess_sentinel_degradation (now : Int) (o : DisplayOptions)
    (pid : Int) (f : FetchResults) :
    ((f.command = none → (GenerateProcess now o pid f).Command = "?")
      ∧ ∀ c, f.command = some c → (GenerateProcess now o pid f).Command = c)
    ∧ ((f.ppid = none → (GenerateProcess now o pid f).PPID = -1)
      ∧ ∀ v, f.ppid = some v → (GenerateProcess now o pid f).PPID = v)
    ∧ (cpuGate o = true →
      ((f.cpuPercent = none → (GenerateProcess now o pid f).CPUPercent = -1)
        ∧ ∀ v, f.cpuPercent = some v → (GenerateProcess now o pid f).CPUPercent = roundFloat2 v))
    ∧ (ageGate o = true →
      ((f.createTime = none → (GenerateProcess now o pid f).CreateTime = -1)
        ∧ ∀ v, f.createTime = some v → (GenerateProcess now o pid f).CreateTime = v))
    ∧ (thrGate o = true →
      ((f.numThreads = none → (GenerateProcess now o pid f).NumThreads = -1)
        ∧ ∀ v, f.numThreads = some v → (GenerateProcess now o pid f).NumThreads = v))
    ∧ (pgidGate o = true →
      ((f.pgid = none → (GenerateProcess now o pid f).PGID = -1)
        ∧ ∀ v, f.pgid = some v → (GenerateProcess now o pid f).PGID = toInt32 v))
    ∧ (userGate o = true →
      ((f.username = none → (GenerateProcess now o pid f).Username = "?")
        ∧ ∀ v, f.username = some v → (GenerateProcess now o pid f).Username = v))
    ∧ ((f.args = none → (GenerateProcess now o pid f).Args = [])
      ∧ ∀ v, f.args = some v →
          (GenerateProcess now o pid f).Args = trimArgs v (f.command.getD "?"))
    ∧ (uidsGate o = true →
      ((f.uids = none → (GenerateProcess now o pid f).UIDs = [])
        ∧ ∀ v, f.uids = some v → (GenerateProcess now o pid f).UIDs = v))
    ∧ ((f.gids = none → (GenerateProcess now o pid f).GIDs = [])
      ∧ ∀ v, f.gids = some v → (GenerateProcess now o pid f).GIDs = v) := by
  refine ⟨⟨?_, ?_⟩, ⟨?_, ?_⟩, ?_, ?_, ?_, ?_, ?_, ⟨?_, ?_⟩, ?_, ⟨?_, ?_⟩⟩
  · intro h; simp [GenerateProcess, h]
  · intro c h; simp [GenerateProcess, h]
  · intro h; simp [GenerateProcess, h]
  · intro v h; simp [GenerateProcess, h]
  · intro hg
    exact ⟨fun h => by simp [GenerateProcess, hg, h, roundFloat2_neg_one],
           fun v h => by simp [GenerateProcess, hg, h]⟩
  · intro hg
    exact ⟨fun h => by simp [GenerateProcess, hg, h],
           fun v h => by simp [GenerateProcess, hg, h]⟩
  · intro hg
    exact ⟨fun h => by simp [GenerateProcess, hg, h],
           fun v h => by simp [GenerateProcess, hg, h]⟩
  · intro hg
    refine ⟨fun h => ?_, fun v h => by simp [GenerateProcess, hg, h]⟩
    have : toInt32 (-1 : Int) = -1 := by decide
    simp [GenerateProcess, hg, h, this]
  · intro hg
    exact ⟨fun h => by simp [GenerateProcess, hg, h],
           fun v h => by simp [GenerateProcess, hg, h]⟩
  · intro h; simp [GenerateProcess, h, trimArgs]
  · intro v h; simp [GenerateProcess, h]
  · intro hg
    exact ⟨fun h => by simp [GenerateProcess, hg, h],
           fun v h => by simp [GenerateProcess, hg, h]⟩
  · intro h; simp [GenerateProcess, h]
  · intro v h; simp [GenerateProcess, h]

/-- Display options opening every gated fetch. -/
def c9opts : DisplayOptions :=
  { ShowCpuPercent := true, ShowProcessAge := true, ShowMemoryUsage := true,
    ShowNumThreads := true, ShowPGIDs := true, ShowOwner := true,
    ShowUIDTransitions := true }

/-- The all-fetches-failed outcome. -/
def c9none : FetchResults := {}

/-- Claim C9 witness: the theorem applied where every fetch failed, with
every gate open — every field shows its sentinel. -/
theorem generateProcess_sentinel_degradation_witness :
    (GenerateProcess 100 c9opts 42 c9none).Command = "?"
    ∧ (GenerateProcess 100 c9opts 42 c9none).PPID = -1
    ∧ (GenerateProcess 100 c9opts 42 c9none).CPUPercent = -1
    ∧ (GenerateProcess 100 c9opts 42 c9none).CreateTime = -1
    ∧ (GenerateProcess 100 c9opts 42 c9none).NumThreads = -1
    ∧ (GenerateProcess 100 c9opts 42 c9none).PGID = -1
    ∧ (GenerateProcess 100 c9opts 42 c9none).Username = "?"
    ∧ (GenerateProcess 100 c9opts 42 c9none).Args = []
    ∧ (GenerateProcess 100 c9opts 42 c9none).UIDs = []
    ∧ (GenerateProcess 100 c9opts 42 c9none).GIDs = [] := by
  obtain ⟨⟨h1, -⟩, ⟨h2, -⟩, h3, h4, h5, h6, h7, ⟨h8, -⟩, h9, ⟨h10, -⟩⟩ :=
    generateProcess_sentinel_degradation 100 c9opts 42 c9none
  exact ⟨h1 rfl, h2 rfl, (h3 rfl).1 rfl, (h4 rfl).1 rfl, (h5 rfl).1 rfl,
    (h6 rfl).1 rfl, (h7 rfl).1 rfl, h8 rfl, (h9 rfl).1 rfl, h10 rfl⟩

end Pstree
